import Mathlib

/-!
# kit/DeltaSimd.c

A shallow embedding of the AVX2 row encoder of `kit/DeltaSimd.c` and the
properties of its output.

* A 256-bit register (`__m256i`) is the list of its eight 32-bit lanes,
  lane 0 first.
* Memory buffers (`from`, `scratch`, `rleMaskBlock`, the static table
  `vpermd_lut`) are lists; every access is bounds-checked and an access
  outside the buffer, a failed `assert` or a loop that exhausts its fuel
  yields a `Fault`.
* The build flag `ENABLE_SIMD` is an argument of the entry point. A branch
  that names an identifier not declared in it does not compile; a run of
  that branch ends in the `Fault` `undeclaredIdentifier` and returns
  nothing.
* Pointers into a buffer are offsets (`block`, `scratchP`).
-/

namespace DeltaSimd

/-! ## Faults -/

/-- Ways in which a run can leave defined behaviour. `undeclaredIdentifier` stands for a
configuration whose text names an identifier that is not declared there: it has no
compiled function, so no call of it returns a value. -/
inductive Fault where
  | assertFailed
  | loadOutOfBounds
  | storeOutOfBounds
  | outOfFuel
  | undeclaredIdentifier
  deriving DecidableEq

/-- The C `assert`. -/
def cAssert (c : Bool) : Except Fault Unit :=
  if c then .ok () else .error .assertFailed

/-! ## Vector registers and the intrinsics used by the file -/

/-- The eight 32-bit lanes of a `__m256i`, lane 0 first. -/
abbrev M256i := List Nat

/-- One 32-bit lane assembled from four bytes, least significant first. -/
def lane32 (b0 b1 b2 b3 : Nat) : Nat :=
  b0 % 256 + 256 * (b1 % 256) + 65536 * (b2 % 256) + 16777216 * (b3 % 256)

/-- The intrinsic `_mm256_set_epi8`: the arguments are given from byte 31 down to byte 0. -/
def mm256_set_epi8
    (e31 e30 e29 e28 e27 e26 e25 e24 e23 e22 e21 e20 e19 e18 e17 e16
     e15 e14 e13 e12 e11 e10 e9 e8 e7 e6 e5 e4 e3 e2 e1 e0 : Nat) : M256i :=
  [lane32 e0 e1 e2 e3, lane32 e4 e5 e6 e7, lane32 e8 e9 e10 e11, lane32 e12 e13 e14 e15,
   lane32 e16 e17 e18 e19, lane32 e20 e21 e22 e23, lane32 e24 e25 e26 e27,
   lane32 e28 e29 e30 e31]

/-- The intrinsic `_mm256_set_epi32`: the arguments are given from lane 7 down to lane 0. -/
def mm256_set_epi32 (e7 e6 e5 e4 e3 e2 e1 e0 : Nat) : M256i :=
  [e0, e1, e2, e3, e4, e5, e6, e7]

/-- The intrinsic `_mm256_loadu_si256` on a `uint32_t` buffer: the eight words at
offsets `p .. p+7`. -/
def mm256_loadu_si256 (mem : List Nat) (p : Nat) : Except Fault M256i :=
  if p + 8 ≤ mem.length then .ok ((mem.drop p).take 8) else .error .loadOutOfBounds

/-- The intrinsic `_mm256_storeu_si256` on a `uint32_t` buffer: all eight lanes are
written, to offsets `p .. p+7`. -/
def mm256_storeu_si256 (mem : List Nat) (p : Nat) (v : M256i) : Except Fault (List Nat) :=
  if p + 8 ≤ mem.length then .ok (mem.take p ++ v.take 8 ++ mem.drop (p + 8))
  else .error .storeOutOfBounds

/-- The intrinsic `_mm256_cmpeq_epi32`: a lane is all-ones where the operands agree, else 0. -/
def mm256_cmpeq_epi32 (a b : M256i) : M256i :=
  List.zipWith (fun x y => if x = y then 0xFFFFFFFF else 0) a b

/-- The intrinsic `_mm256_castsi256_ps` reinterprets the bits. -/
def mm256_castsi256_ps (a : M256i) : M256i := a

/-- The intrinsic `_mm256_movemask_ps`: bit `j` of the result is the sign bit (bit 31) of
lane `j`. -/
def mm256_movemask_ps : M256i → Nat
  | [] => 0
  | l :: rest => (l / 2 ^ 31) % 2 + 2 * mm256_movemask_ps rest

/-- The intrinsic `_mm256_permutevar8x32_epi32`: lane `j` of the result is the lane of `a`
selected by the low three bits of lane `j` of `idx`. -/
def mm256_permutevar8x32_epi32 (a idx : M256i) : M256i :=
  idx.map (fun i => a.getD (i % 8) 0)

/-- Number of set bits among the low `w` bits. -/
def popcnt : Nat → Nat → Nat
  | 0, _ => 0
  | w + 1, a => a % 2 + popcnt w (a / 2)

/-- The intrinsic `_mm_popcnt_u32`; the argument is converted to `unsigned int`. -/
def mm_popcnt_u32 (a : Nat) : Nat := popcnt 32 (a % 2 ^ 32)

/-- Read of one word `mem[p]`. -/
def readWord (mem : List Nat) (p : Nat) : Except Fault Nat :=
  match mem[p]? with
  | some v => .ok v
  | none => .error .loadOutOfBounds

/-! ## `init_gather_lut` -/

/-- The loop `for (bitToCheck = 1; bitToCheck < 256; bitToCheck <<= 1)` of
`init_gather_lut`, on the locals `i`, `src` and `lut` (a `uint8_t[8]`). -/
def scanBits (pattern : Nat) :
    Nat → Nat → Nat → Nat → List Nat → Except Fault (Nat × Nat × List Nat)
  | 0, _, _, _, _ => .error .outOfFuel
  | fuel + 1, bitToCheck, i, src, lut =>
    if bitToCheck < 256 then
      if pattern &&& bitToCheck = 0 then
        if i < lut.length then
          scanBits pattern fuel ((bitToCheck <<< 1) % 2 ^ 32) (i + 1) (src + 1)
            (lut.set i (src % 256))
        else .error .storeOutOfBounds
      else
        scanBits pattern fuel ((bitToCheck <<< 1) % 2 ^ 32) i (src + 1) lut
    else .ok (i, src, lut)

/-- The loop `while (i<8) lut[i++] = 0;` of `init_gather_lut`. -/
def padLut : Nat → Nat → List Nat → Except Fault (Nat × List Nat)
  | 0, _, _ => .error .outOfFuel
  | fuel + 1, i, lut =>
    if i < 8 then
      if i < lut.length then padLut fuel (i + 1) (lut.set i 0)
      else .error .storeOutOfBounds
    else .ok (i, lut)

/-- The body of the `pattern` loop up to the store: the local array `lut` after both
loops. `lut0` is the content the uninitialised local array happens to have. -/
def lutRow (lut0 : List Nat) (pattern : Nat) : Except Fault (List Nat) := do
  let (i, _, lut) ← scanBits pattern 16 1 0 0 lut0
  let (_, lut) ← padLut 16 i lut
  pure lut

/-- The value stored in `vpermd_lut[pattern]`: the `_mm256_set_epi8` of the local array. -/
def vpermdRow (lut : List Nat) : M256i :=
  mm256_set_epi8
    0 0 0 (lut.getD 7 0) 0 0 0 (lut.getD 6 0)
    0 0 0 (lut.getD 5 0) 0 0 0 (lut.getD 4 0)
    0 0 0 (lut.getD 3 0) 0 0 0 (lut.getD 2 0)
    0 0 0 (lut.getD 1 0) 0 0 0 (lut.getD 0 0)

/-- The loop `for (pattern = 0; pattern < 256; ++pattern)` of `init_gather_lut`, with
`n` iterations to go. The uninitialised local array `lut` is taken to start from zeros in
every iteration; `lutRow_indep` shows that its initial content does not matter. -/
def patternLoop : Nat → Nat → List M256i → Except Fault (List M256i)
  | 0, _, vpermd_lut => .ok vpermd_lut
  | n + 1, pattern, vpermd_lut => do
    let lut ← lutRow (List.replicate 8 0) pattern
    if pattern < vpermd_lut.length then
      patternLoop n (pattern + 1) (vpermd_lut.set pattern (vpermdRow lut))
    else .error .storeOutOfBounds

/-- The function `init_gather_lut`, as a transformer of the static table `vpermd_lut`. -/
def init_gather_lut (vpermd_lut : List M256i) : Except Fault (List M256i) :=
  patternLoop 256 0 vpermd_lut

/-! ## `diffMask` -/

/-- The function `diffMask`. -/
def diffMask (prev curr : M256i) : Nat :=
  let res := mm256_cmpeq_epi32 prev curr
  let m256 := mm256_castsi256_ps res
  mm256_movemask_ps m256

/-! ## `simd_initPixRowSimd` -/

/-- The static state of the module. -/
structure Module where
  lut_initialized : Nat
  vpermd_lut : List M256i
  deriving DecidableEq

/-- The buffers the caller passes by pointer. -/
structure Buffers where
  scratch : List Nat
  scratchLen : Nat
  rleMaskBlock : List Nat
  deriving DecidableEq

/-- The locals of `simd_initPixRowSimd` that live across the loops; `block` and
`scratchP` are the offsets of the moving pointers `block` and `scratch` into their
buffers, `scratch` is the content of the scratch buffer. -/
structure Locals where
  x : Nat
  block : Nat
  scratchP : Nat
  scratchLen : Nat
  scratch : List Nat
  rleMask : Nat
  newMask : Nat
  deriving DecidableEq

/-- Conversion of an `unsigned int` to `int`. -/
def toInt32 (n : Nat) : Int :=
  if n % 2 ^ 32 < 2 ^ 31 then (n % 2 ^ 32 : Nat) else ((n % 2 ^ 32 : Nat) : Int) - 2 ^ 32

/-- The `switch (x)` that builds `prev`. -/
def loadPrev (from_ : List Nat) (st : Locals) : Except Fault M256i :=
  match st.x with
  | 0 => do
    let b6 ← readWord from_ (st.block + 6)
    let b5 ← readWord from_ (st.block + 5)
    let b4 ← readWord from_ (st.block + 4)
    let b3 ← readWord from_ (st.block + 3)
    let b2 ← readWord from_ (st.block + 2)
    let b1 ← readWord from_ (st.block + 1)
    let b0 ← readWord from_ (st.block + 0)
    pure (mm256_set_epi32 b6 b5 b4 b3 b2 b1 b0 0)
  | _ + 1 =>
    if st.block = 0 then .error .loadOutOfBounds
    else mm256_loadu_si256 from_ (st.block - 1)

/-- The body of the inner loop `for (int i = 0; i < blocks; ++i)`. -/
def groupBody (vpermd_lut : List M256i) (from_ : List Nat) (i : Nat) (st : Locals) :
    Except Fault Locals := do
  let curr ← mm256_loadu_si256 from_ st.block
  let prev ← loadPrev from_ st
  let newMask := diffMask prev curr
  let rleMask := st.rleMask ||| ((newMask <<< (i * 8)) % 2 ^ 64)
  cAssert (decide (newMask < 256))
  let control_vector ←
    match vpermd_lut[newMask]? with
    | some v => Except.ok v
    | none => Except.error Fault.loadOutOfBounds
  let packed := mm256_permutevar8x32_epi32 curr control_vector
  let countBitsUnset := mm_popcnt_u32 (newMask ^^^ 0xff)
  cAssert (decide (countBitsUnset ≤ 8))
  let scratch ← mm256_storeu_si256 st.scratch st.scratchP packed
  pure { x := (st.x + 8) % 2 ^ 32
         block := st.block + 8
         scratchP := st.scratchP + countBitsUnset
         scratchLen := (st.scratchLen + countBitsUnset) % 2 ^ 32
         scratch := scratch
         rleMask := rleMask
         newMask := newMask }

/-- The inner loop `for (int i = 0; i < blocks; ++i)`, with `n` iterations to go. -/
def groupLoop (vpermd_lut : List M256i) (from_ : List Nat) :
    Nat → Nat → Locals → Except Fault Locals
  | 0, _, st => .ok st
  | n + 1, i, st => do
    let st ← groupBody vpermd_lut from_ i st
    groupLoop vpermd_lut from_ n (i + 1) st

/-- The body of the outer loop `for (nMask = 0; nMask < 4; ++nMask)`. -/
def maskBody (vpermd_lut : List M256i) (from_ : List Nat) (nMask : Nat)
    (st : Locals) (rleMaskBlock : List Nat) : Except Fault (Locals × List Nat) := do
  let st := { st with rleMask := 0, newMask := 0 }
  let remaining : Int := toInt32 ((256 + (2 ^ 32 - st.x % 2 ^ 32)) % 2 ^ 32)
  cAssert (decide (remaining.tmod 8 = 0))
  let blocks : Int := remaining.tdiv 8
  let blocks : Int := if blocks > 8 then 8 else blocks
  let st ← groupLoop vpermd_lut from_ blocks.toNat 0 st
  if nMask < rleMaskBlock.length then
    pure (st, rleMaskBlock.set nMask st.rleMask)
  else .error .storeOutOfBounds

/-- The outer loop `for (nMask = 0; nMask < 4; ++nMask)`, with `n` iterations to go. -/
def maskLoop (vpermd_lut : List M256i) (from_ : List Nat) :
    Nat → Nat → Locals → List Nat → Except Fault (Locals × List Nat)
  | 0, _, st, rleMaskBlock => .ok (st, rleMaskBlock)
  | n + 1, nMask, st, rleMaskBlock => do
    let (st, rleMaskBlock) ← maskBody vpermd_lut from_ nMask st rleMaskBlock
    maskLoop vpermd_lut from_ n (nMask + 1) st rleMaskBlock

/-- The one-time initialisation at the head of `simd_initPixRowSimd`:
`if (!lut_initialized) { lut_initialized = 1; init_gather_lut(); }`. -/
def lutGuard (md : Module) : Except Fault Module :=
  if md.lut_initialized = 0 then do
    let md : Module := { md with lut_initialized := 1 }
    let tbl ← init_gather_lut md.vpermd_lut
    pure { md with vpermd_lut := tbl }
  else pure md

/-- The identifiers that the branch of `simd_initPixRowSimd` without SIMD names, and the
parameter it does not name. -/
inductive Identifier where
  | from_
  | scratch
  | scratchLen
  | rleMaskBlock
  | rleMask
  deriving DecidableEq

/-- The identifiers declared where the branch without SIMD stands: the four parameters
`from`, `scratch`, `scratchLen` and `rleMaskBlock`. The local `rleMask` is declared in the
body of the outer loop, which belongs to the branch with SIMD; without SIMD the file
declares nothing of that name. -/
def Identifier.declared : Identifier → Bool
  | .from_ => true
  | .scratch => true
  | .scratchLen => true
  | .rleMaskBlock => true
  | .rleMask => false

/-- The statement `(void)name;` of the branch without SIMD. On a declared identifier it has
no effect; on an undeclared one the branch does not compile, and the run ends in
`undeclaredIdentifier`. -/
def voidCast (name : Identifier) : Except Fault Unit :=
  if name.declared then .ok () else .error .undeclaredIdentifier

/-- The function `simd_initPixRowSimd`. `ENABLE_SIMD` is the build flag, `md` the static
state before the call; the result is the returned `int`, the static state and the
caller's buffers after the call. The branch without SIMD is
`(void)from; (void)scratch; (void)scratchLen; (void)rleMask; return 0;`: its last cast
names `rleMask`, not the parameter `rleMaskBlock`, so the `return 0` behind it is never
reached. -/
def simd_initPixRowSimd (ENABLE_SIMD : Bool) (md : Module) (from_ : List Nat)
    (bufs : Buffers) : Except Fault (Int × Module × Buffers) :=
  if !ENABLE_SIMD then do
    voidCast .from_
    voidCast .scratch
    voidCast .scratchLen
    voidCast .rleMask
    pure (0, md, bufs)
  else do
    let md ← lutGuard md
    let st : Locals :=
      { x := 0, block := 0, scratchP := 0, scratchLen := 0, scratch := bufs.scratch
        rleMask := 0, newMask := 0 }
    let (st, rleMaskBlock) ← maskLoop md.vpermd_lut from_ 4 0 st bufs.rleMaskBlock
    pure (1, md, { scratch := st.scratch, scratchLen := st.scratchLen
                   rleMaskBlock := rleMaskBlock })

/-- The static state at program start: the flag is 0 and the table is zero-filled. -/
def Module.initial : Module :=
  { lut_initialized := 0, vpermd_lut := List.replicate 256 (List.replicate 8 0) }

/-! ## Closed forms of the run

The definitions below name what the loops compute, group by group; the lemmas
`lutRow_eq`, `init_gather_lut_eq`, `groupBody_stateAt`, `maskLoop_stateAt` and
`simd_initPixRowSimd_eq` prove that the embedding above computes exactly these. -/

/-- The content of the local array `lut` of `init_gather_lut` for the pattern `m`, in
closed form: the positions of the unset bits of `m` among bits 0..7, ascending, then zeros
up to eight entries (`lutRow_eq`). -/
def specRow (m : Nat) : List Nat :=
  (List.range 8).filter (fun j => !m.testBit j) ++
    List.replicate (8 - ((List.range 8).filter (fun j => !m.testBit j)).length) 0

/-- The table `vpermd_lut` once `init_gather_lut` has run (`init_gather_lut_eq`). -/
def gatherTable : List M256i := (List.range 256).map specRow

/-- The register `curr` of group `g` (pixels `8g .. 8g+7`). -/
def currGroup (px : List Nat) (g : Nat) : M256i := (px.drop (8 * g)).take 8

/-- The register `prev` of group `g`: the `case 0` of the `switch` for the first group,
the load from `block - 1` for the others. -/
def prevGroup (px : List Nat) (g : Nat) : M256i :=
  if g = 0 then
    mm256_set_epi32 (px.getD 6 0) (px.getD 5 0) (px.getD 4 0) (px.getD 3 0)
      (px.getD 2 0) (px.getD 1 0) (px.getD 0 0) 0
  else (px.drop (8 * g - 1)).take 8

/-- The value of `newMask` for group `g`. -/
def groupMask (px : List Nat) (g : Nat) : Nat := diffMask (prevGroup px g) (currGroup px g)

/-- The value of `countBitsUnset` for group `g`. -/
def groupCount (px : List Nat) (g : Nat) : Nat := mm_popcnt_u32 (groupMask px g ^^^ 0xff)

/-- The register `packed` of group `g`. -/
def groupPacked (px : List Nat) (g : Nat) : M256i :=
  mm256_permutevar8x32_epi32 (currGroup px g) (specRow (groupMask px g))

/-- The running count `*scratchLen` after `g` groups. -/
def countAfter (px : List Nat) : Nat → Nat
  | 0 => 0
  | g + 1 => countAfter px g + groupCount px g

/-- The content of the scratch buffer after `g` groups, starting from `scratch0`. -/
def scratchAfter (px scratch0 : List Nat) : Nat → List Nat
  | 0 => scratch0
  | g + 1 =>
    (scratchAfter px scratch0 g).take (countAfter px g) ++ (groupPacked px g).take 8 ++
      (scratchAfter px scratch0 g).drop (countAfter px g + 8)

/-- The value of `rleMask` after `i` groups of the outer iteration `n`. -/
def rleAfter (px : List Nat) (n : Nat) : Nat → Nat
  | 0 => 0
  | i + 1 => rleAfter px n i ||| ((groupMask px (8 * n + i) <<< (i * 8)) % 2 ^ 64)

/-- The locals after `i` groups of the outer iteration `n`. -/
def stateAt (px scratch0 : List Nat) (n i : Nat) : Locals :=
  { x := 8 * (8 * n + i)
    block := 8 * (8 * n + i)
    scratchP := countAfter px (8 * n + i)
    scratchLen := countAfter px (8 * n + i)
    scratch := scratchAfter px scratch0 (8 * n + i)
    rleMask := rleAfter px n i
    newMask := if i = 0 then 0 else groupMask px (8 * n + i - 1) }

/-- The content of `rleMaskBlock` after `n` outer iterations, starting from `rle0`. -/
def rleBlockAfter (px rle0 : List Nat) : Nat → List Nat
  | 0 => rle0
  | n + 1 => (rleBlockAfter px rle0 n).set n (rleAfter px n 8)

/-- The static states a call can find: the table has its 256 entries, and if the flag is
set the table is the one `init_gather_lut` builds from the zero-filled table of program
start. -/
def Module.Valid (md : Module) : Prop :=
  md.vpermd_lut.length = 256 ∧
    (md.lut_initialized ≠ 0 →
      init_gather_lut (List.replicate 256 (List.replicate 8 0)) = .ok md.vpermd_lut)

/-- The static state after a call with SIMD enabled (`lutGuard_eq`). -/
def Module.after (md : Module) : Module :=
  if md.lut_initialized = 0 then { lut_initialized := 1, vpermd_lut := gatherTable } else md

/-! ## Vocabulary of the properties -/

/-- Pixel `i` repeats its left neighbour; the neighbour of pixel 0 is the sentinel 0. -/
def dup (px : List Nat) (i : Nat) : Bool :=
  decide (px.getD i 0 = if i = 0 then 0 else px.getD (i - 1) 0)

/-- The pixels at positions `s .. s+n-1` that do not repeat their left neighbour. -/
def keptIn (px : List Nat) (s n : Nat) : List Nat :=
  ((List.range' s n).filter (fun i => !dup px i)).map (fun i => px.getD i 0)

/-- The scalar scan in the words of the specification: walk the pixels with `prev`
starting as given, emit a pixel iff it differs from `prev`, then set `prev` to it. This is
the reference the encoder is compared with, not a translation of code. -/
def scalarScan : Nat → List Nat → List Nat
  | _, [] => []
  | prev, p :: rest => if p ≠ prev then p :: scalarScan p rest else scalarScan p rest

/-- The last element of a list, or `p` for the empty list. -/
def lastOr : Nat → List Nat → Nat
  | p, [] => p
  | _, b :: l => lastOr b l

/-- Modelled from the spec: the row decoder, an external collaborator whose code is not in
`kit/DeltaSimd.c`. For each of `n` pixel positions from `pos` on, in order: if the
duplicate bit of the position is 1 the value is the already reconstructed left neighbour
`left` (0 at position 0), otherwise it is the next unread entry `compacted[used]`. The
result is the reconstructed pixels and the number of compacted entries consumed; `none`
when the compacted sequence runs out. -/
def decodeLoop (rleMaskBlock compacted : List Nat) :
    Nat → Nat → Nat → Nat → Option (List Nat × Nat)
  | 0, _, _, used => some ([], used)
  | n + 1, pos, left, used =>
    if (rleMaskBlock.getD (pos / 64) 0).testBit (pos % 64) then
      (decodeLoop rleMaskBlock compacted n (pos + 1) left used).map
        (fun r => (left :: r.1, r.2))
    else
      match compacted[used]? with
      | none => none
      | some v =>
        (decodeLoop rleMaskBlock compacted n (pos + 1) v (used + 1)).map
          (fun r => (v :: r.1, r.2))

/-- Modelled from the spec: the row decoder on a whole 256-pixel scanline, starting at
position 0 with the sentinel 0 as left neighbour and nothing consumed. -/
def decodeRow (rleMaskBlock compacted : List Nat) : Option (List Nat × Nat) :=
  decodeLoop rleMaskBlock compacted 256 0 0 0

/-! ## Repeated builds and sequences of calls -/

/-- The static table after `k` successive runs of `init_gather_lut`. -/
def buildTimes : Nat → List M256i → Except Fault (List M256i)
  | 0, vpermd_lut => .ok vpermd_lut
  | k + 1, vpermd_lut => do
    let tbl ← init_gather_lut vpermd_lut
    buildTimes k tbl

/-- The guard `lutGuard` with a ghost counter: `builds` is increased where
`init_gather_lut` is called. Erasing the counter gives `lutGuard`
(`lutGuardCounted_erase`). -/
def lutGuardCounted (md : Module) (builds : Nat) : Except Fault (Module × Nat) :=
  if md.lut_initialized = 0 then do
    let md : Module := { md with lut_initialized := 1 }
    let tbl ← init_gather_lut md.vpermd_lut
    pure ({ md with vpermd_lut := tbl }, builds + 1)
  else pure (md, builds)

/-- The function `simd_initPixRowSimd` with the ghost counter of `lutGuardCounted` threaded
through. Erasing the counter gives `simd_initPixRowSimd`
(`simd_initPixRowSimdCounted_erase`). -/
def simd_initPixRowSimdCounted (ENABLE_SIMD : Bool) (md : Module) (builds : Nat)
    (from_ : List Nat) (bufs : Buffers) : Except Fault (Int × Module × Buffers × Nat) :=
  if !ENABLE_SIMD then do
    voidCast .from_
    voidCast .scratch
    voidCast .scratchLen
    voidCast .rleMask
    pure (0, md, bufs, builds)
  else do
    let (md, builds) ← lutGuardCounted md builds
    let st : Locals :=
      { x := 0, block := 0, scratchP := 0, scratchLen := 0, scratch := bufs.scratch
        rleMask := 0, newMask := 0 }
    let (st, rleMaskBlock) ← maskLoop md.vpermd_lut from_ 4 0 st bufs.rleMaskBlock
    pure (1, md, { scratch := st.scratch, scratchLen := st.scratchLen
                   rleMaskBlock := rleMaskBlock }, builds)

/-- A sequence of calls of `simd_initPixRowSimd` (SIMD enabled), one after the other on
the static state, each with its own scanline and buffers; the result is the static state
and the ghost counter after the last call. -/
def callSequence : Module → Nat → List (List Nat × Buffers) → Except Fault (Module × Nat)
  | md, builds, [] => .ok (md, builds)
  | md, builds, (from_, bufs) :: rest => do
    let (_, md, _, builds) ← simd_initPixRowSimdCounted true md builds from_ bufs
    callSequence md builds rest

/-! ## Runs with another table -/

/-- The locals of two runs agree in everything but the scratch content at and after the
running count of `b`. -/
def AgreeUpTo (a b : Locals) : Prop :=
  a.x = b.x ∧ a.block = b.block ∧ a.scratchP = b.scratchP ∧ a.scratchLen = b.scratchLen ∧
  a.rleMask = b.rleMask ∧ a.newMask = b.newMask ∧ a.scratch.length = b.scratch.length ∧
  a.scratch.take b.scratchP = b.scratch.take b.scratchP

/-- The table `alt` differs from `tbl` in padding lanes only: it has 256 rows of eight
lanes, every lane is an index in 0..7, and the row of each mask `m` agrees with the row of
`tbl` on the first `popcount(m XOR 0xFF)` lanes. -/
def PaddingVariant (alt tbl : List M256i) : Prop :=
  alt.length = 256 ∧
  ∀ m, m < 256 →
    (alt.getD m []).length = 8 ∧
    (∀ j, j < 8 → (alt.getD m []).getD j 0 < 8) ∧
    (alt.getD m []).take (mm_popcnt_u32 (m ^^^ 0xff))
      = (tbl.getD m []).take (mm_popcnt_u32 (m ^^^ 0xff))

/-! ## Interleaved first calls

Several threads enter `simd_initPixRowSimd`; each executes, in order, the statements of
the first-use block and then the encoder loop. A step of a thread is one statement; the
steps of the threads interleave in any order on the shared static variables. -/

/-- The statement a thread executes next: the test `if (!lut_initialized)`, the assignment
`lut_initialized = 1`, the call `init_gather_lut()`, the encoder loop (which reads
`vpermd_lut`), or nothing more. -/
inductive Pc where
  | check
  | setFlag
  | build
  | encode
  | done
  deriving DecidableEq

/-- The static variables shared by the threads, and the ghost counter of completed
executions of `init_gather_lut`. -/
structure Shared where
  lut_initialized : Nat
  vpermd_lut : List M256i
  builds : Nat
  deriving DecidableEq

/-- One thread: its next statement and the table its encoder loop has read, if it has. -/
structure Thread where
  pc : Pc
  tableRead : Option (List M256i)
  deriving DecidableEq

/-- One step of one thread on the shared variables. -/
def threadStep (sh : Shared) (t : Thread) : Except Fault (Shared × Thread) :=
  match t.pc with
  | .check =>
    if sh.lut_initialized = 0 then .ok (sh, { t with pc := .setFlag })
    else .ok (sh, { t with pc := .encode })
  | .setFlag => .ok ({ sh with lut_initialized := 1 }, { t with pc := .build })
  | .build => do
    let tbl ← init_gather_lut sh.vpermd_lut
    pure ({ sh with vpermd_lut := tbl, builds := sh.builds + 1 }, { t with pc := .encode })
  | .encode => .ok (sh, { pc := .done, tableRead := some sh.vpermd_lut })
  | .done => .ok (sh, t)

/-- The threads run under a schedule: the list of the thread indices that step, in order.
An index that names no thread is skipped. -/
def runSchedule : Shared → List Thread → List Nat → Except Fault (Shared × List Thread)
  | sh, threads, [] => .ok (sh, threads)
  | sh, threads, tid :: rest =>
    match threads[tid]? with
    | none => runSchedule sh threads rest
    | some t => do
      let (sh, t) ← threadStep sh t
      runSchedule sh (threads.set tid t) rest

/-- The shared variables at program start. -/
def Shared.initial : Shared :=
  { lut_initialized := 0, vpermd_lut := List.replicate 256 (List.replicate 8 0), builds := 0 }

/-- A thread that enters the function. -/
def Thread.fresh : Thread := { pc := .check, tableRead := none }

/-- A thread that is outside the first-use block and has read no table other than `tbl`. -/
def Thread.Settled (tbl : List M256i) (t : Thread) : Prop :=
  (t.pc = .check ∨ t.pc = .encode ∨ t.pc = .done) ∧
  (t.tableRead = none ∨ t.tableRead = some tbl)

/-- The run `x` ended without fault in a result that passes the test `p`. -/
def okAnd {ε α : Type} (x : Except ε α) (p : α → Bool) : Bool :=
  match x with
  | .ok a => p a
  | .error _ => false

/-! ## Lemmas -/

/-! ### `init_gather_lut` builds `gatherTable` -/

theorem ok_bind {ε α β : Type} (a : α) (f : α → Except ε β) :
    ((Except.ok a : Except ε α) >>= f) = f a := rfl

theorem and_two_pow_eq_zero (p s : Nat) : p &&& 2 ^ s = 0 ↔ p.testBit s = false := by
  rw [Nat.and_two_pow]
  cases p.testBit s <;> simp

theorem set_take_succ (lut : List Nat) (i v : Nat) (hi : i < lut.length) :
    (lut.set i v).take (i + 1) = lut.take i ++ [v] := by
  rw [List.set_eq_take_append_cons_drop, if_pos hi, List.take_append_eq_append_take,
    List.length_take, Nat.min_eq_left (Nat.le_of_lt hi),
    List.take_of_length_le (by rw [List.length_take]; omega)]
  have e : i + 1 - i = 1 := by omega
  rw [e]
  rfl

theorem scanBits_eq (pattern : Nat) :
    ∀ (k s i fuel : Nat) (lut : List Nat), s + k = 8 → i ≤ s → lut.length = 8 → k < fuel →
      scanBits pattern fuel (2 ^ s) i s lut
        = .ok (i + ((List.range' s k).filter (fun j => !pattern.testBit j)).length, 8,
            lut.take i ++ (List.range' s k).filter (fun j => !pattern.testBit j) ++
              lut.drop (i + ((List.range' s k).filter (fun j => !pattern.testBit j)).length))
  | 0, s, i, fuel + 1, lut, hs, hi, hl, hf => by
    have h8 : s = 8 := by omega
    subst h8
    simp [scanBits]
  | k + 1, s, i, fuel + 1, lut, hs, hi, hl, hf => by
    have hlt : 2 ^ s < 256 := by
      calc 2 ^ s < 2 ^ 8 := Nat.pow_lt_pow_right (by decide) (by omega)
        _ = 256 := by decide
    have hnext : (2 ^ s <<< 1) % 2 ^ 32 = 2 ^ (s + 1) := by
      rw [Nat.shiftLeft_eq, ← Nat.pow_succ]
      apply Nat.mod_eq_of_lt
      exact Nat.pow_lt_pow_right (by decide) (by omega)
    rw [scanBits, if_pos hlt, hnext, List.range'_succ, List.filter_cons]
    by_cases hb : pattern.testBit s = false
    · have hz : pattern &&& 2 ^ s = 0 := (and_two_pow_eq_zero pattern s).mpr hb
      have hil : i < lut.length := by omega
      rw [if_pos hz, if_pos hil, Nat.mod_eq_of_lt (by omega : s < 256),
        scanBits_eq pattern k (s + 1) (i + 1) fuel (lut.set i s) (by omega) (by omega)
          (by simp [hl]) (by omega)]
      simp only [hb, Bool.not_false, if_true, List.length_cons]
      rw [set_take_succ lut i s hil, List.drop_set_of_lt _ _ (by omega)]
      have e : i + 1 + (List.filter (fun j => !pattern.testBit j) (List.range' (s + 1) k)).length
          = i + ((List.filter (fun j => !pattern.testBit j) (List.range' (s + 1) k)).length + 1) := by
        omega
      rw [e]
      simp
    · have hb1 : pattern.testBit s = true := by simpa using hb
      have hz : ¬ (pattern &&& 2 ^ s = 0) := by
        rw [and_two_pow_eq_zero]; simp [hb1]
      rw [if_neg hz, scanBits_eq pattern k (s + 1) i fuel lut (by omega) (by omega) hl (by omega)]
      simp [hb1]

theorem padLut_eq :
    ∀ (k i fuel : Nat) (lut : List Nat), i + k = 8 → lut.length = 8 → k < fuel →
      padLut fuel i lut = .ok (8, lut.take i ++ List.replicate k 0)
  | 0, i, fuel + 1, lut, hi, hl, hf => by
    have h8 : i = 8 := by omega
    subst h8
    simp [padLut, List.take_of_length_le (Nat.le_of_eq hl)]
  | k + 1, i, fuel + 1, lut, hi, hl, hf => by
    have hi8 : i < 8 := by omega
    have hil : i < lut.length := by omega
    rw [padLut, if_pos hi8, if_pos hil,
      padLut_eq k (i + 1) fuel (lut.set i 0) (by omega) (by simp [hl]) (by omega),
      set_take_succ lut i 0 hil, List.replicate_succ]
    simp

/-- Both loops of the `pattern` body end by their conditions within the fuel, and the local
array ends as `specRow pattern` whatever it held at first. -/
theorem lutRow_eq (lut0 : List Nat) (h0 : lut0.length = 8) (pattern : Nat) :
    lutRow lut0 pattern = .ok (specRow pattern) := by
  have hU := List.length_filter_le (fun j => !pattern.testBit j) (List.range' 0 8)
  rw [List.length_range'] at hU
  have hs := scanBits_eq pattern 8 0 0 16 lut0 rfl (Nat.le_refl 0) h0 (by decide)
  rw [Nat.pow_zero] at hs
  unfold lutRow
  rw [hs, ok_bind]
  simp only [Nat.zero_add, List.take_zero, List.nil_append]
  rw [padLut_eq (8 - ((List.range' 0 8).filter (fun j => !pattern.testBit j)).length) _ 16 _
    (by omega) (by simp [h0]; omega) (by omega), ok_bind]
  simp only [pure, Except.pure, specRow, List.range_eq_range', List.take_left]

theorem lutRow_indep (lut0 : List Nat) (h0 : lut0.length = 8) (pattern : Nat) :
    lutRow lut0 pattern = lutRow (List.replicate 8 0) pattern := by
  rw [lutRow_eq lut0 h0, lutRow_eq _ (List.length_replicate 8 0)]

theorem vpermdRow_specRow_check : ∀ m < 256, vpermdRow (specRow m) = specRow m := by
  decide!

theorem patternLoop_eq :
    ∀ (n p : Nat) (tbl : List M256i), p + n ≤ tbl.length → p + n ≤ 256 →
      patternLoop n p tbl
        = .ok (tbl.take p ++ (List.range' p n).map specRow ++ tbl.drop (p + n))
  | 0, p, tbl, _, _ => by simp [patternLoop]
  | n + 1, p, tbl, h1, h2 => by
    simp only [patternLoop]
    rw [lutRow_eq _ (List.length_replicate 8 0) p]
    simp only [bind, Except.bind]
    rw [if_pos (by omega), vpermdRow_specRow_check p (by omega)]
    rw [patternLoop_eq n (p + 1) _ (by simp; omega) (by omega)]
    congr 1
    have hp : p < tbl.length := by omega
    rw [List.set_eq_take_append_cons_drop, if_pos hp]
    have e1 : List.take (p + 1) (List.take p tbl ++ specRow p :: List.drop (p + 1) tbl)
        = List.take p tbl ++ [specRow p] := by
      rw [List.take_append_eq_append_take]
      simp [List.length_take, Nat.min_eq_left (Nat.le_of_lt hp)]
    have e2 : List.drop (p + 1 + n) (List.take p tbl ++ specRow p :: List.drop (p + 1) tbl)
        = List.drop (p + (n + 1)) tbl := by
      rw [List.drop_append_eq_append_drop]
      simp [List.length_take, Nat.min_eq_left (Nat.le_of_lt hp)]
      have e3 : p + 1 + n - p = n + 1 := by omega
      have e4 : p + 1 + n = p + (n + 1) := by omega
      rw [e3, List.drop_succ_cons, List.drop_drop, List.drop_eq_nil_of_le
        (by simp; omega : (List.take p tbl).length ≤ p + 1 + n)]
      simp [e4]
    rw [e1, e2, List.range'_succ]
    simp

theorem init_gather_lut_eq (tbl : List M256i) (h : tbl.length = 256) :
    init_gather_lut tbl = .ok gatherTable := by
  unfold init_gather_lut
  rw [patternLoop_eq 256 0 tbl (by omega) (by omega)]
  rw [List.take_zero, List.nil_append, List.drop_eq_nil_of_le (by omega), List.append_nil,
    gatherTable, List.range_eq_range']

/-! ### One group -/

theorem loadu_ok (mem : List Nat) (p : Nat) (h : p + 8 ≤ mem.length) :
    mm256_loadu_si256 mem p = .ok ((mem.drop p).take 8) := by
  simp [mm256_loadu_si256, h]

theorem readWord_ok (mem : List Nat) (p : Nat) (h : p < mem.length) :
    readWord mem p = .ok (mem.getD p 0) := by
  simp [readWord, List.getD_eq_getElem?_getD, List.getElem?_eq_getElem h]

theorem loadPrev_ok (px : List Nat) (st : Locals) (g : Nat) (hpx : px.length = 256)
    (hg : g < 32) (hx : st.x = 8 * g) (hb : st.block = 8 * g) :
    loadPrev px st = .ok (prevGroup px g) := by
  unfold loadPrev
  rcases Nat.eq_zero_or_pos g with h0 | hpos
  · subst h0
    simp only [Nat.mul_zero] at hx hb
    rw [hx, hb]
    simp only [Nat.zero_add]
    rw [readWord_ok px 6 (by omega), readWord_ok px 5 (by omega), readWord_ok px 4 (by omega),
      readWord_ok px 3 (by omega), readWord_ok px 2 (by omega), readWord_ok px 1 (by omega),
      readWord_ok px 0 (by omega)]
    rfl
  · obtain ⟨k, hk⟩ : ∃ k, st.x = k + 1 := ⟨8 * g - 1, by omega⟩
    rw [hk]
    simp only
    have hne : st.block ≠ 0 := by omega
    rw [if_neg hne, loadu_ok px _ (by omega), hb]
    simp [prevGroup, Nat.pos_iff_ne_zero.mp hpos]

theorem movemask_cmpeq_lt (a b : List Nat) :
    mm256_movemask_ps (mm256_cmpeq_epi32 a b) < 2 ^ (min a.length b.length) := by
  induction a generalizing b with
  | nil => simp [mm256_cmpeq_epi32, mm256_movemask_ps]
  | cons x a ih =>
    cases b with
    | nil => simp [mm256_cmpeq_epi32, mm256_movemask_ps]
    | cons y b =>
      have h := ih b
      simp only [mm256_cmpeq_epi32] at h
      simp only [mm256_cmpeq_epi32, List.zipWith_cons_cons, mm256_movemask_ps, List.length_cons]
      have hmin : min (a.length + 1) (b.length + 1) = min a.length b.length + 1 := by omega
      rw [hmin, pow_succ]
      have : (if x = y then 4294967295 else 0) / 2 ^ 31 % 2 < 2 := Nat.mod_lt _ (by decide)
      omega

theorem movemask_cmpeq_testBit (a b : List Nat) (j : Nat) (ha : j < a.length)
    (hb : j < b.length) :
    (mm256_movemask_ps (mm256_cmpeq_epi32 a b)).testBit j
      = decide (a.getD j 0 = b.getD j 0) := by
  induction a generalizing b j with
  | nil => simp at ha
  | cons x a ih =>
    cases b with
    | nil => simp at hb
    | cons y b =>
      have h := ih b
      simp only [mm256_cmpeq_epi32] at h
      simp only [mm256_cmpeq_epi32, List.zipWith_cons_cons, mm256_movemask_ps]
      cases j with
      | zero =>
        by_cases hxy : x = y
        · simp [hxy, Nat.testBit_zero, Nat.add_mul_mod_self_left]
        · simp [hxy, Nat.testBit_zero]
      | succ j =>
        simp only [List.length_cons, Nat.add_lt_add_iff_right] at ha hb
        rw [Nat.testBit_succ]
        have hb2 : (if x = y then 4294967295 else 0) / 2 ^ 31 % 2 < 2 := Nat.mod_lt _ (by decide)
        have hdiv : ((if x = y then 4294967295 else 0) / 2 ^ 31 % 2 +
            2 * mm256_movemask_ps (List.zipWith (fun x y => if x = y then 4294967295 else 0) a b)) / 2
            = mm256_movemask_ps (List.zipWith (fun x y => if x = y then 4294967295 else 0) a b) := by
          omega
        rw [hdiv, h j ha hb]
        simp [List.getD_cons_succ]

theorem currGroup_length (px : List Nat) (g : Nat) (hpx : px.length = 256) (hg : g < 32) :
    (currGroup px g).length = 8 := by
  simp [currGroup, hpx]; omega

theorem prevGroup_length (px : List Nat) (g : Nat) (hpx : px.length = 256) (hg : g < 32) :
    (prevGroup px g).length = 8 := by
  unfold prevGroup
  split
  · rfl
  · simp [hpx]; omega

theorem groupMask_lt (px : List Nat) (g : Nat) (hpx : px.length = 256) (hg : g < 32) :
    groupMask px g < 256 := by
  have h := movemask_cmpeq_lt (prevGroup px g) (currGroup px g)
  rw [prevGroup_length px g hpx hg, currGroup_length px g hpx hg] at h
  simpa [groupMask, diffMask, mm256_castsi256_ps] using h

theorem popcnt_xor_le_check : ∀ m < 256, mm_popcnt_u32 (m ^^^ 0xff) ≤ 8 := by
  decide!

theorem groupCount_le (px : List Nat) (g : Nat) (hpx : px.length = 256) (hg : g < 32) :
    groupCount px g ≤ 8 :=
  popcnt_xor_le_check _ (groupMask_lt px g hpx hg)

theorem gatherTable_getElem? (m : Nat) (hm : m < 256) :
    gatherTable[m]? = some (specRow m) := by
  simp [gatherTable, List.getElem?_range, hm]

theorem countAfter_le (px : List Nat) (hpx : px.length = 256) :
    ∀ g, g ≤ 32 → countAfter px g ≤ 8 * g
  | 0, _ => by simp [countAfter]
  | g + 1, h => by
    have h1 := countAfter_le px hpx g (by omega)
    have h2 := groupCount_le px g hpx (by omega)
    simp only [countAfter]; omega

theorem scratchAfter_length (px scratch0 : List Nat) (hpx : px.length = 256)
    (hs : 256 ≤ scratch0.length) :
    ∀ g, g ≤ 32 → (scratchAfter px scratch0 g).length = scratch0.length
  | 0, _ => rfl
  | g + 1, h => by
    have h1 := scratchAfter_length px scratch0 hpx hs g (by omega)
    have h2 := countAfter_le px hpx g (by omega)
    have h3 : (groupPacked px g).length = 8 := by
      simp [groupPacked, mm256_permutevar8x32_epi32, specRow]
      have := List.length_filter_le (fun j => !(groupMask px g).testBit j) (List.range 8)
      simp at this
      omega
    simp only [scratchAfter, List.length_append, List.length_take, List.length_drop, h1, h3]
    omega

/-- The loop body run in the state before group `8n + i` ends without fault in the state
before the next group. -/
theorem groupBody_stateAt (px scratch0 : List Nat) (n i : Nat) (hpx : px.length = 256)
    (hs : 256 ≤ scratch0.length) (hn : n < 4) (hi : i < 8) :
    groupBody gatherTable px i (stateAt px scratch0 n i)
      = .ok (stateAt px scratch0 n (i + 1)) := by
  have hg : 8 * n + i < 32 := by omega
  have hm := groupMask_lt px (8 * n + i) hpx hg
  have hc := groupCount_le px (8 * n + i) hpx hg
  have hk := countAfter_le px hpx (8 * n + i) (by omega)
  have hl := scratchAfter_length px scratch0 hpx hs (8 * n + i) (by omega)
  have hprev := loadPrev_ok px (stateAt px scratch0 n i) (8 * n + i) hpx hg rfl rfl
  have hcur : mm256_loadu_si256 px (stateAt px scratch0 n i).block
      = .ok (currGroup px (8 * n + i)) := by
    rw [loadu_ok]
    · rfl
    · simp only [stateAt]; omega
  have hst : mm256_storeu_si256 (stateAt px scratch0 n i).scratch
      (stateAt px scratch0 n i).scratchP
      (mm256_permutevar8x32_epi32 (currGroup px (8 * n + i)) (specRow (groupMask px (8 * n + i))))
      = .ok (scratchAfter px scratch0 (8 * n + i + 1)) := by
    simp only [mm256_storeu_si256, stateAt, hl]
    rw [if_pos (by omega)]
    rfl
  unfold groupBody
  rw [hprev, hcur]
  simp only [bind, Except.bind, pure, Except.pure]
  have hmask : diffMask (prevGroup px (8 * n + i)) (currGroup px (8 * n + i))
      = groupMask px (8 * n + i) := rfl
  rw [hmask]
  have hcnt : mm_popcnt_u32 (groupMask px (8 * n + i) ^^^ 255) = groupCount px (8 * n + i) := rfl
  rw [hcnt]
  have ha1 : cAssert (decide (groupMask px (8 * n + i) < 256)) = .ok () := by
    simp [cAssert, hm]
  have ha2 : cAssert (decide (groupCount px (8 * n + i) ≤ 8)) = .ok () := by
    simp [cAssert, hc]
  rw [ha1, gatherTable_getElem? _ hm, ha2]
  simp only []
  rw [hst]
  simp only []
  have e1 : 8 * n + (i + 1) = 8 * n + i + 1 := rfl
  have e2 : countAfter px (8 * n + i + 1)
      = countAfter px (8 * n + i) + groupCount px (8 * n + i) := rfl
  have e3 : rleAfter px n (i + 1)
      = rleAfter px n i ||| ((groupMask px (8 * n + i) <<< (i * 8)) % 2 ^ 64) := rfl
  simp only [stateAt, e1, e2, e3, Except.ok.injEq, Locals.mk.injEq]
  refine ⟨by omega, by omega, trivial, by omega, trivial, trivial, by simp⟩

/-! ### The loops -/

theorem groupLoop_stateAt (px scratch0 : List Nat) (n : Nat) (hpx : px.length = 256)
    (hs : 256 ≤ scratch0.length) (hn : n < 4) :
    ∀ k i, i + k ≤ 8 →
      groupLoop gatherTable px k i (stateAt px scratch0 n i)
        = .ok (stateAt px scratch0 n (i + k))
  | 0, i, _ => rfl
  | k + 1, i, h => by
    simp only [groupLoop]
    rw [groupBody_stateAt px scratch0 n i hpx hs hn (by omega)]
    simp only [bind, Except.bind]
    rw [groupLoop_stateAt px scratch0 n hpx hs hn k (i + 1) (by omega)]
    have : i + 1 + k = i + (k + 1) := by omega
    rw [this]

theorem maskBody_stateAt (px scratch0 : List Nat) (n : Nat) (st : Locals) (rle : List Nat)
    (hpx : px.length = 256) (hs : 256 ≤ scratch0.length) (hn : n < 4)
    (hst : { st with rleMask := 0, newMask := 0 } = stateAt px scratch0 n 0)
    (hr : n < rle.length) :
    maskBody gatherTable px n st rle
      = .ok (stateAt px scratch0 n 8, rle.set n (rleAfter px n 8)) := by
  unfold maskBody
  simp only [hst]
  have hx : st.x = 64 * n := by
    have h := congrArg Locals.x hst
    simp only [stateAt] at h
    omega
  rw [hx]
  have hrem : toInt32 ((256 + (2 ^ 32 - 64 * n % 2 ^ 32)) % 2 ^ 32) = 256 - 64 * (n : Int) := by
    interval_cases n <;> decide
  rw [hrem]
  have hblocks : (if (256 - 64 * (n : Int)).tdiv 8 > 8 then (8 : Int)
      else (256 - 64 * (n : Int)).tdiv 8).toNat = 8 := by
    interval_cases n <;> decide
  have hmod : (256 - 64 * (n : Int)).tmod 8 = 0 := by
    interval_cases n <;> decide
  have hassert : cAssert (decide ((256 - 64 * (n : Int)).tmod 8 = 0)) = .ok () := by
    simp [cAssert, hmod]
  simp only [hassert, bind, Except.bind, hblocks]
  rw [groupLoop_stateAt px scratch0 n hpx hs hn 8 0 (by omega)]
  simp only [hr, if_true, pure, Except.pure]
  rfl

theorem stateAt_reset (px scratch0 : List Nat) (n : Nat) :
    { stateAt px scratch0 n 8 with rleMask := 0, newMask := 0 }
      = stateAt px scratch0 (n + 1) 0 := by
  have e : 8 * (n + 1) + 0 = 8 * n + 8 := by omega
  simp only [stateAt, e]
  rfl

theorem rleBlockAfter_length (px rle0 : List Nat) :
    ∀ n, (rleBlockAfter px rle0 n).length = rle0.length
  | 0 => rfl
  | n + 1 => by simp [rleBlockAfter, rleBlockAfter_length px rle0 n]

theorem maskLoop_from (px scratch0 rle0 : List Nat) (hpx : px.length = 256)
    (hs : 256 ≤ scratch0.length) (hr : rle0.length = 4) :
    ∀ (k n : Nat) (st : Locals), n + k < 4 →
      { st with rleMask := 0, newMask := 0 } = stateAt px scratch0 n 0 →
      maskLoop gatherTable px (k + 1) n st (rleBlockAfter px rle0 n)
        = .ok (stateAt px scratch0 (n + k) 8, rleBlockAfter px rle0 (n + k + 1))
  | 0, n, st, h, hst => by
    simp only [maskLoop, bind, Except.bind]
    rw [maskBody_stateAt px scratch0 n st _ hpx hs (by omega) hst
      (by rw [rleBlockAfter_length, hr]; omega)]
    rfl
  | k + 1, n, st, h, hst => by
    rw [maskLoop]
    simp only [bind, Except.bind]
    rw [maskBody_stateAt px scratch0 n st _ hpx hs (by omega) hst
      (by rw [rleBlockAfter_length, hr]; omega)]
    simp only []
    have ih := maskLoop_from px scratch0 rle0 hpx hs hr k (n + 1) (stateAt px scratch0 n 8)
      (by omega) (stateAt_reset px scratch0 n)
    have e : n + 1 + k = n + (k + 1) := by omega
    rw [e] at ih
    exact ih

theorem stateAt_zero (px scratch0 : List Nat) :
    stateAt px scratch0 0 0 =
      { x := 0, block := 0, scratchP := 0, scratchLen := 0, scratch := scratch0
        rleMask := 0, newMask := 0 } := by
  simp [stateAt, countAfter, scratchAfter, rleAfter]

theorem maskLoop_stateAt (px scratch0 rle0 : List Nat) (hpx : px.length = 256)
    (hs : 256 ≤ scratch0.length) (hr : rle0.length = 4) :
    maskLoop gatherTable px 4 0
        { x := 0, block := 0, scratchP := 0, scratchLen := 0, scratch := scratch0
          rleMask := 0, newMask := 0 } rle0
      = .ok (stateAt px scratch0 3 8, rleBlockAfter px rle0 4) :=
  maskLoop_from px scratch0 rle0 hpx hs hr 3 0 _ (by omega) (stateAt_zero px scratch0).symm

theorem Module.after_table (md : Module) (h : md.Valid) :
    md.after.vpermd_lut = gatherTable := by
  unfold Module.after
  split
  · rfl
  · next hne =>
    have h2 := h.2 hne
    rw [init_gather_lut_eq _ (List.length_replicate 256 _)] at h2
    exact (Except.ok.inj h2).symm

theorem lutGuard_eq (md : Module) (hmd : md.Valid) : lutGuard md = .ok md.after := by
  unfold lutGuard Module.after
  split
  · dsimp only
    rw [init_gather_lut_eq _ hmd.1]; rfl
  · rfl

/-- The run of `simd_initPixRowSimd` with SIMD enabled, in closed form: it returns 1, the
table is built, and the buffers hold the closed forms after 32 groups. -/
theorem simd_initPixRowSimd_eq (md : Module) (px : List Nat) (bufs : Buffers)
    (hmd : md.Valid) (hpx : px.length = 256) (hs : 256 ≤ bufs.scratch.length)
    (hr : bufs.rleMaskBlock.length = 4) :
    simd_initPixRowSimd true md px bufs
      = .ok (1, md.after,
          { scratch := scratchAfter px bufs.scratch 32
            scratchLen := countAfter px 32
            rleMaskBlock := rleBlockAfter px bufs.rleMaskBlock 4 }) := by
  have htbl := Module.after_table md hmd
  have hloop := maskLoop_stateAt px bufs.scratch bufs.rleMaskBlock hpx hs hr
  unfold simd_initPixRowSimd
  simp only [Bool.not_true, Bool.false_eq_true, if_false]
  rw [lutGuard_eq md hmd]
  rw [ok_bind, htbl, hloop, ok_bind]
  rfl

/-! ### What the closed forms contain -/

theorem currGroup_getD (px : List Nat) (g j : Nat) (hj : j < 8) :
    (currGroup px g).getD j 0 = px.getD (8 * g + j) 0 := by
  simp [currGroup, List.getD_eq_getElem?_getD, List.getElem?_take, hj, List.getElem?_drop]

theorem prevGroup_getD (px : List Nat) (g j : Nat) (hj : j < 8) :
    (prevGroup px g).getD j 0
      = if 8 * g + j = 0 then 0 else px.getD (8 * g + j - 1) 0 := by
  unfold prevGroup
  by_cases hg : g = 0
  · subst hg
    simp only [if_true, mm256_set_epi32]
    interval_cases j <;> simp
  · have e : 8 * g - 1 + j = 8 * g + j - 1 := by omega
    have hne : 8 * g + j ≠ 0 := by omega
    simp [hg, hne, List.getD_eq_getElem?_getD, List.getElem?_take, hj, List.getElem?_drop, e]

theorem groupMask_testBit (px : List Nat) (g j : Nat) (hpx : px.length = 256) (hg : g < 32)
    (hj : j < 8) : (groupMask px g).testBit j = dup px (8 * g + j) := by
  have h := movemask_cmpeq_testBit (prevGroup px g) (currGroup px g) j
    (by rw [prevGroup_length px g hpx hg]; exact hj)
    (by rw [currGroup_length px g hpx hg]; exact hj)
  rw [prevGroup_getD px g j hj, currGroup_getD px g j hj] at h
  simp only [groupMask, diffMask, mm256_castsi256_ps, dup]
  rw [h]
  exact decide_eq_decide.mpr eq_comm

theorem groupMask_testBit_ge (px : List Nat) (g j : Nat) (hpx : px.length = 256)
    (hg : g < 32) (hj : 8 ≤ j) : (groupMask px g).testBit j = false := by
  apply Nat.testBit_lt_two_pow
  calc groupMask px g < 2 ^ 8 := groupMask_lt px g hpx hg
    _ ≤ 2 ^ j := Nat.pow_le_pow_right (by decide) hj

theorem popcnt_xor_check :
    ∀ m < 256, mm_popcnt_u32 (m ^^^ 0xff)
      = ((List.range 8).filter (fun j => !m.testBit j)).length := by
  decide!

theorem groupCount_eq (px : List Nat) (g : Nat) (hpx : px.length = 256) (hg : g < 32) :
    groupCount px g = (keptIn px (8 * g) 8).length := by
  unfold groupCount
  rw [popcnt_xor_check _ (groupMask_lt px g hpx hg)]
  simp only [keptIn, List.length_map, List.range'_eq_map_range, List.filter_map]
  congr 1
  apply List.filter_congr
  intro j hj
  have hj8 : j < 8 := by simpa using hj
  simp [groupMask_testBit px g j hpx hg hj8]

theorem groupPacked_take (px : List Nat) (g : Nat) (hpx : px.length = 256) (hg : g < 32) :
    (groupPacked px g).take (groupCount px g) = keptIn px (8 * g) 8 := by
  have hc : groupCount px g
      = ((List.range 8).filter (fun j => !(groupMask px g).testBit j)).length :=
    popcnt_xor_check _ (groupMask_lt px g hpx hg)
  have hf : (List.range 8).filter (fun j => !(groupMask px g).testBit j)
      = (List.range 8).filter (fun j => !dup px (8 * g + j)) := by
    apply List.filter_congr
    intro j hj
    have hj8 : j < 8 := by simpa using hj
    simp [groupMask_testBit px g j hpx hg hj8]
  rw [hc]
  simp only [groupPacked, mm256_permutevar8x32_epi32, specRow, List.map_append]
  rw [← List.length_map _ (fun i => (currGroup px g).getD (i % 8) 0), List.take_left, hf]
  simp only [keptIn, List.range'_eq_map_range, List.filter_map, List.map_map]
  apply List.map_congr_left
  intro j hj
  have hj8 : j < 8 := by
    have := List.mem_of_mem_filter hj
    simpa using this
  simp only [Function.comp_apply, Nat.mod_eq_of_lt hj8]
  exact currGroup_getD px g j hj8

theorem keptIn_append (px : List Nat) (s m n : Nat) :
    keptIn px s (m + n) = keptIn px s m ++ keptIn px (s + m) n := by
  have h := List.range'_append s m n 1
  rw [Nat.one_mul, Nat.add_comm n m] at h
  simp only [keptIn, ← h, List.filter_append, List.map_append]

theorem keptIn_length_le (px : List Nat) (s n : Nat) : (keptIn px s n).length ≤ n := by
  have h := List.length_filter_le (fun i => !dup px i) (List.range' s n)
  simpa [keptIn] using h

theorem countAfter_eq (px : List Nat) (hpx : px.length = 256) :
    ∀ g, g ≤ 32 → countAfter px g = (keptIn px 0 (8 * g)).length
  | 0, _ => by simp [countAfter, keptIn]
  | g + 1, h => by
    have ih := countAfter_eq px hpx g (by omega)
    have e : 8 * (g + 1) = 8 * g + 8 := by omega
    rw [e, keptIn_append, List.length_append, Nat.zero_add, ← ih,
      ← groupCount_eq px g hpx (by omega)]
    rfl

theorem groupPacked_length (px : List Nat) (g : Nat) : (groupPacked px g).length = 8 := by
  simp only [groupPacked, mm256_permutevar8x32_epi32, specRow, List.length_map,
    List.length_append, List.length_replicate]
  have := List.length_filter_le (fun j => !(groupMask px g).testBit j) (List.range 8)
  simp only [List.length_range] at this
  omega

theorem scratchAfter_take (px scratch0 : List Nat) (hpx : px.length = 256)
    (hs : 256 ≤ scratch0.length) :
    ∀ g, g ≤ 32 → (scratchAfter px scratch0 g).take (countAfter px g) = keptIn px 0 (8 * g)
  | 0, _ => by simp [countAfter, keptIn]
  | g + 1, h => by
    have ih := scratchAfter_take px scratch0 hpx hs g (by omega)
    have hl := scratchAfter_length px scratch0 hpx hs g (by omega)
    have hk := countAfter_le px hpx g (by omega)
    have hc := groupCount_le px g hpx (by omega)
    have e : 8 * (g + 1) = 8 * g + 8 := by omega
    have hlen : ((scratchAfter px scratch0 g).take (countAfter px g)).length
        = countAfter px g := by
      rw [List.length_take]; omega
    rw [e, keptIn_append, Nat.zero_add, ← ih, ← groupPacked_take px g hpx (by omega)]
    simp only [scratchAfter, countAfter]
    rw [List.append_assoc, List.take_append_eq_append_take, hlen,
      List.take_of_length_le (by rw [hlen]; omega),
      List.take_append_eq_append_take, List.length_take, groupPacked_length,
      List.take_take]
    have e1 : countAfter px g + groupCount px g - countAfter px g = groupCount px g := by omega
    have e2 : groupCount px g - min 8 8 = 0 := by omega
    rw [e1, e2, List.take_zero, List.append_nil, Nat.min_eq_left hc]

theorem scratchAfter_frame (px scratch0 : List Nat) (hpx : px.length = 256)
    (hs : 256 ≤ scratch0.length) :
    ∀ g, g ≤ 32 → ∀ k, countAfter px g + 8 ≤ k →
      (scratchAfter px scratch0 g)[k]? = scratch0[k]?
  | 0, _, _, _ => rfl
  | g + 1, h, k, hk => by
    have ih := scratchAfter_frame px scratch0 hpx hs g (by omega)
    have hl := scratchAfter_length px scratch0 hpx hs g (by omega)
    have hle := countAfter_le px hpx g (by omega)
    simp only [countAfter] at hk
    have hlen : ((scratchAfter px scratch0 g).take (countAfter px g)).length
        = countAfter px g := by
      rw [List.length_take]; omega
    have hlen2 : ((groupPacked px g).take 8).length = 8 := by
      rw [List.length_take, groupPacked_length]; rfl
    simp only [scratchAfter]
    rw [List.getElem?_append_right (by simp only [List.length_append, hlen, hlen2]; omega),
      List.getElem?_drop, List.length_append, hlen, hlen2]
    have e : countAfter px g + 8 + (k - (countAfter px g + 8)) = k := by omega
    rw [e]
    exact ih k (by omega)

theorem rleAfter_testBit (px : List Nat) (n : Nat) (hpx : px.length = 256) (hn : n < 4) :
    ∀ i, i ≤ 8 → ∀ b,
      (rleAfter px n i).testBit b = (decide (b < 8 * i) && dup px (64 * n + b))
  | 0, _, b => by simp [rleAfter]
  | i + 1, hi, b => by
    have ih := rleAfter_testBit px n hpx hn i (by omega) b
    have hg : 8 * n + i < 32 := by omega
    simp only [rleAfter, Nat.testBit_or, Nat.testBit_mod_two_pow, Nat.testBit_shiftLeft, ih]
    rcases Nat.lt_or_ge b (8 * i) with h1 | h1
    · have h2 : ¬ (b ≥ i * 8) := by omega
      have h3 : b < 8 * (i + 1) := by omega
      simp [h1, h2, h3]
    · rcases Nat.lt_or_ge b (8 * i + 8) with h2 | h2
      · have h3 : ¬ (b < 8 * i) := by omega
        have h4 : b < 64 := by omega
        have h5 : b ≥ i * 8 := by omega
        have h6 : b < 8 * (i + 1) := by omega
        have e : 8 * (8 * n + i) + (b - i * 8) = 64 * n + b := by omega
        rw [groupMask_testBit px (8 * n + i) (b - i * 8) hpx hg (by omega), e]
        simp [h3, h4, h5, h6]
      · have h3 : ¬ (b < 8 * i) := by omega
        have h6 : ¬ (b < 8 * (i + 1)) := by omega
        rw [groupMask_testBit_ge px (8 * n + i) (b - i * 8) hpx hg (by omega)]
        simp [h3, h6]

theorem rleBlockAfter_four (px rle0 : List Nat) (hr : rle0.length = 4) :
    rleBlockAfter px rle0 4
      = [rleAfter px 0 8, rleAfter px 1 8, rleAfter px 2 8, rleAfter px 3 8] := by
  match rle0, hr with
  | [a, b, c, d], _ => simp [rleBlockAfter]

/-! ### The scalar scan -/

theorem lastOr_snoc (a : Nat) : ∀ (l : List Nat) (p : Nat), lastOr p (l ++ [a]) = a
  | [], _ => rfl
  | b :: l, _ => by simpa [lastOr] using lastOr_snoc a l b

theorem scalarScan_snoc (a : Nat) :
    ∀ (l : List Nat) (p : Nat),
      scalarScan p (l ++ [a]) = scalarScan p l ++ (if a = lastOr p l then [] else [a])
  | [], p => by
    by_cases h : a = p <;> simp [scalarScan, lastOr, h]
  | b :: l, p => by
    have ih := scalarScan_snoc a l b
    simp only [List.cons_append, scalarScan, lastOr]
    split <;> simp [ih]

theorem take_lastOr (px : List Nat) :
    ∀ n, n ≤ px.length →
      lastOr 0 (px.take n) = if n = 0 then 0 else px.getD (n - 1) 0
  | 0, _ => by simp [lastOr]
  | n + 1, h => by
    have hn : n < px.length := by omega
    rw [List.take_succ, List.getElem?_eq_getElem hn, Option.toList_some, lastOr_snoc]
    simp [List.getD_eq_getElem?_getD, List.getElem?_eq_getElem hn]

theorem keptIn_one (px : List Nat) (n : Nat) :
    keptIn px n 1 = if dup px n then [] else [px.getD n 0] := by
  simp only [keptIn, List.range'_one, List.filter_cons, List.filter_nil]
  cases dup px n <;> simp

theorem scalarScan_take (px : List Nat) :
    ∀ n, n ≤ px.length → scalarScan 0 (px.take n) = keptIn px 0 n
  | 0, _ => by simp [scalarScan, keptIn]
  | n + 1, h => by
    have hn : n < px.length := by omega
    have ih := scalarScan_take px n (by omega)
    have hlast := take_lastOr px n (by omega)
    have hget : px.getD n 0 = px[n] := List.getD_eq_getElem px 0 hn
    have hd : dup px n = decide (px[n] = lastOr 0 (px.take n)) := by
      rw [hlast, dup, hget]
    rw [keptIn_append, ← ih, List.take_succ, List.getElem?_eq_getElem hn, Option.toList_some,
      scalarScan_snoc, Nat.zero_add, keptIn_one, hd, hget]
    by_cases hc : px[n] = lastOr 0 (px.take n) <;> simp [hc]

theorem scalarScan_eq (px : List Nat) (hpx : px.length = 256) :
    scalarScan 0 px = keptIn px 0 256 := by
  have h := scalarScan_take px 256 (by omega)
  rwa [List.take_of_length_le (by omega)] at h

/-- The bits of the four mask words, pixel by pixel. -/
theorem rleBlock_testBit (px rle0 : List Nat) (hpx : px.length = 256) (hr : rle0.length = 4)
    (i : Nat) (hi : i < 256) :
    ((rleBlockAfter px rle0 4).getD (i / 64) 0).testBit (i % 64) = dup px i := by
  rw [rleBlockAfter_four px rle0 hr]
  have hn : i / 64 < 4 := by omega
  have hb : i % 64 < 64 := Nat.mod_lt _ (by decide)
  have e : 64 * (i / 64) + i % 64 = i := Nat.div_add_mod i 64
  have key : ∀ n, n < 4 → n = i / 64 →
      ([rleAfter px 0 8, rleAfter px 1 8, rleAfter px 2 8, rleAfter px 3 8].getD n 0).testBit
        (i % 64) = dup px i := by
    intro n hn4 hni
    have h := rleAfter_testBit px n hpx hn4 8 (by omega) (i % 64)
    rw [hni, e] at h
    have hw : [rleAfter px 0 8, rleAfter px 1 8, rleAfter px 2 8, rleAfter px 3 8].getD n 0
        = rleAfter px n 8 := by
      interval_cases n <;> rfl
    rw [hw, hni, h]
    simp [hb]
  exact key (i / 64) hn rfl

theorem out_take (px scratch0 : List Nat) (hpx : px.length = 256)
    (hs : 256 ≤ scratch0.length) :
    (scratchAfter px scratch0 32).take (countAfter px 32) = scalarScan 0 px := by
  rw [scratchAfter_take px scratch0 hpx hs 32 (by omega), scalarScan_eq px hpx]

theorem out_len (px : List Nat) (hpx : px.length = 256) :
    countAfter px 32 = (scalarScan 0 px).length := by
  rw [countAfter_eq px hpx 32 (by omega), scalarScan_eq px hpx]

/-! ### The decoder -/

theorem keptIn_getElem?_length (px : List Nat) (pos : Nat) (hpos : pos < 256)
    (hd : dup px pos = false) :
    (keptIn px 0 256)[(keptIn px 0 pos).length]? = some (px.getD pos 0) := by
  have e : 256 = pos + (1 + (255 - pos)) := by omega
  rw [e, keptIn_append, keptIn_append, Nat.zero_add, keptIn_one, hd]
  simp only [Bool.false_eq_true, if_false]
  rw [List.getElem?_append_right (Nat.le_refl _), Nat.sub_self, List.singleton_append,
    List.getElem?_cons_zero]

theorem decodeLoop_spec (px rle : List Nat) (hpx : px.length = 256)
    (hbits : ∀ i, i < 256 → (rle.getD (i / 64) 0).testBit (i % 64) = dup px i) :
    ∀ n pos, pos + n = 256 →
      decodeLoop rle (keptIn px 0 256) n pos (if pos = 0 then 0 else px.getD (pos - 1) 0)
          (keptIn px 0 pos).length
        = some (px.drop pos, (keptIn px 0 256).length)
  | 0, pos, h => by
    have : pos = 256 := by omega
    subst this
    simp [decodeLoop, List.drop_eq_nil_of_le (Nat.le_of_eq hpx)]
  | n + 1, pos, h => by
    have hpos : pos < 256 := by omega
    have hlt : pos < px.length := by omega
    have ih := decodeLoop_spec px rle hpx hbits n (pos + 1) (by omega)
    have hsucc : (if pos + 1 = 0 then 0 else px.getD (pos + 1 - 1) 0) = px.getD pos 0 := by
      simp
    rw [hsucc] at ih
    have hdrop : px.drop pos = px.getD pos 0 :: px.drop (pos + 1) := by
      rw [List.getD_eq_getElem px 0 hlt]
      exact List.drop_eq_getElem_cons hlt
    have hk : keptIn px 0 (pos + 1) = keptIn px 0 pos ++ keptIn px pos 1 := by
      rw [keptIn_append, Nat.zero_add]
    rw [decodeLoop, hbits pos hpos]
    cases hd : dup px pos with
    | true =>
      have hval : px.getD pos 0 = if pos = 0 then 0 else px.getD (pos - 1) 0 := by
        simpa [dup] using hd
      have hlen : (keptIn px 0 (pos + 1)).length = (keptIn px 0 pos).length := by
        rw [hk, keptIn_one, hd]; simp
      rw [hlen, hval] at ih
      simp only [if_true]
      rw [ih, hdrop, hval]
      rfl
    | false =>
      have hlen : (keptIn px 0 (pos + 1)).length = (keptIn px 0 pos).length + 1 := by
        rw [hk, keptIn_one, hd]; simp
      rw [hlen] at ih
      simp only [Bool.false_eq_true, if_false]
      rw [keptIn_getElem?_length px pos hpos hd]
      simp only []
      rw [ih, hdrop]
      rfl

/-! ### Counting and boundary cases -/

theorem specRow_check :
    ∀ m < 256,
      (specRow m).length = 8 ∧
      (∀ j < 8, (specRow m).getD j 0 < 256) ∧
      (specRow m).take (mm_popcnt_u32 ((2 ^ 32 - 1 - m) &&& 0xFF))
        = (List.range 8).filter (fun b => !m.testBit b) ∧
      (∀ j < 8, mm_popcnt_u32 ((2 ^ 32 - 1 - m) &&& 0xFF) ≤ j → (specRow m).getD j 0 = 0) := by
  decide!

theorem countAfter_eq_sum (px : List Nat) :
    ∀ g, countAfter px g = ((List.range g).map (fun h => groupCount px h)).sum
  | 0 => rfl
  | g + 1 => by
    rw [List.sum_range_succ, ← countAfter_eq_sum px g]
    rfl

theorem popcnt_eq_filter :
    ∀ (w a : Nat), popcnt w a = ((List.range w).filter (fun j => a.testBit j)).length
  | 0, _ => rfl
  | w + 1, a => by
    have ih := popcnt_eq_filter w (a / 2)
    have hf : (fun j => a.testBit j) ∘ Nat.succ = fun j => (a / 2).testBit j := by
      funext j
      exact Nat.testBit_succ a j
    rw [popcnt, ih, List.range_succ_eq_map, List.filter_cons, List.filter_map, hf,
      Nat.testBit_zero]
    rcases Nat.mod_two_eq_zero_or_one a with h | h
    · simp [h]
    · simp [h]
      omega

theorem rleAfter_popcnt (px : List Nat) (n : Nat) (hpx : px.length = 256) (hn : n < 4) :
    popcnt 64 (rleAfter px n 8) + (keptIn px (64 * n) 64).length = 64 := by
  have hf : (List.range 64).filter (fun j => (rleAfter px n 8).testBit j)
      = (List.range 64).filter (fun j => dup px (64 * n + j)) := by
    apply List.filter_congr
    intro j hj
    have hj64 : j < 64 := by simpa using hj
    rw [rleAfter_testBit px n hpx hn 8 (by omega) j]
    simp [hj64]
  have hk : (keptIn px (64 * n) 64).length
      = ((List.range 64).filter (fun j => !dup px (64 * n + j))).length := by
    simp only [keptIn, List.length_map, List.range'_eq_map_range, List.filter_map]
    rfl
  have hsplit := List.length_eq_length_filter_add (l := List.range 64)
    (fun j => dup px (64 * n + j))
  rw [List.length_range] at hsplit
  rw [popcnt_eq_filter, hf, hk]
  omega

theorem rleAfter_lt (px : List Nat) (n : Nat) (hpx : px.length = 256) (hn : n < 4) :
    rleAfter px n 8 < 2 ^ 64 := by
  apply Nat.lt_pow_two_of_testBit
  intro i hi
  rw [rleAfter_testBit px n hpx hn 8 (by omega) i]
  have : ¬ (i < 8 * 8) := by omega
  simp [this]

theorem keptIn_blocks (px : List Nat) :
    (keptIn px 0 256).length
      = (keptIn px (64 * 0) 64).length + (keptIn px (64 * 1) 64).length
        + (keptIn px (64 * 2) 64).length + (keptIn px (64 * 3) 64).length := by
  have e : 256 = 64 + (64 + (64 + 64)) := by rfl
  rw [e, keptIn_append, keptIn_append, keptIn_append]
  simp only [List.length_append, Nat.mul_zero, Nat.zero_add, Nat.mul_one, Nat.reduceMul,
    Nat.reduceAdd]
  omega

theorem groupMask_eq_byte (px : List Nat) (g : Nat) (hpx : px.length = 256) (hg : g < 32) :
    groupMask px g = (rleAfter px (g / 8) 8 >>> (8 * (g % 8))) % 256 := by
  apply Nat.eq_of_testBit_eq
  intro j
  have e256 : (256 : Nat) = 2 ^ 8 := by rfl
  have hn : g / 8 < 4 := by omega
  rw [e256, Nat.testBit_mod_two_pow, Nat.testBit_shiftRight,
    rleAfter_testBit px (g / 8) hpx hn 8 (by omega)]
  rcases Nat.lt_or_ge j 8 with hj | hj
  · have h1 : 8 * (g % 8) + j < 8 * 8 := by omega
    have e : 64 * (g / 8) + (8 * (g % 8) + j) = 8 * g + j := by omega
    rw [groupMask_testBit px g j hpx hg hj, e]
    simp [hj, h1]
  · have h1 : ¬ (j < 8) := by omega
    rw [groupMask_testBit_ge px g j hpx hg hj]
    simp [h1]

theorem store_stateAt (px scratch0 : List Nat) (n i : Nat) (hpx : px.length = 256)
    (hs : 256 ≤ scratch0.length) (hn : n < 4) (hi : i < 8) :
    mm256_storeu_si256 (stateAt px scratch0 n i).scratch (stateAt px scratch0 n i).scratchP
        (groupPacked px (8 * n + i))
      = .ok (stateAt px scratch0 n (i + 1)).scratch := by
  have hk := countAfter_le px hpx (8 * n + i) (by omega)
  have hl := scratchAfter_length px scratch0 hpx hs (8 * n + i) (by omega)
  simp only [mm256_storeu_si256, stateAt, hl]
  rw [if_pos (by omega)]
  rfl

theorem keptIn_all (px : List Nat) (hpx : px.length = 256)
    (h : ∀ i, i < 256 → dup px i = false) : keptIn px 0 256 = px := by
  have hf : (List.range' 0 256).filter (fun i => !dup px i) = List.range' 0 256 := by
    apply List.filter_eq_self.mpr
    intro a ha
    have ha' : a < 256 := by
      have := List.mem_range'_1.mp ha
      omega
    simp [h a ha']
  unfold keptIn
  rw [hf]
  apply List.ext_getElem
  · rw [List.length_map, List.length_range', hpx]
  · intro n h1 h2
    rw [List.getElem_map, List.getElem_range', List.getD_eq_getElem?_getD]
    simp [List.getElem?_eq_getElem h2]

theorem keptIn_none (px : List Nat) (s n : Nat)
    (h : ∀ i, s ≤ i → i < s + n → dup px i = true) : keptIn px s n = [] := by
  have hf : (List.range' s n).filter (fun i => !dup px i) = [] := by
    apply List.filter_eq_nil_iff.mpr
    intro a ha
    have ha' := List.mem_range'_1.mp ha
    simp [h a ha'.1 ha'.2]
  unfold keptIn
  rw [hf]
  rfl

theorem rleAfter_eq_zero (px : List Nat) (n : Nat) (hpx : px.length = 256) (hn : n < 4)
    (h : ∀ i, i < 256 → dup px i = false) : rleAfter px n 8 = 0 := by
  apply Nat.eq_of_testBit_eq
  intro b
  rw [rleAfter_testBit px n hpx hn 8 (by omega) b, Nat.zero_testBit]
  rcases Nat.lt_or_ge b 64 with hb | hb
  · rw [h (64 * n + b) (by omega)]; simp
  · have : ¬ (b < 8 * 8) := by omega
    simp [this]

theorem rleAfter_eq_ones (px : List Nat) (n : Nat) (hpx : px.length = 256) (hn : n < 4)
    (h : ∀ i, i < 256 → dup px i = true) : rleAfter px n 8 = 2 ^ 64 - 1 := by
  apply Nat.eq_of_testBit_eq
  intro b
  rw [rleAfter_testBit px n hpx hn 8 (by omega) b, Nat.testBit_two_pow_sub_one]
  rcases Nat.lt_or_ge b 64 with hb | hb
  · rw [h (64 * n + b) (by omega)]; simp [hb]
  · have h1 : ¬ (b < 8 * 8) := by omega
    have h2 : ¬ (b < 64) := by omega
    simp [h1, h2]

theorem take_prefix_getElem? (S pre tl : List Nat) (K : Nat)
    (h : S.take K = pre ++ tl) (hK : K = (pre ++ tl).length) (j : Nat) (hj : j < pre.length) :
    S[j]? = pre[j]? := by
  have hjK : j < K := by rw [hK, List.length_append]; omega
  have h1 : (S.take K)[j]? = S[j]? := by rw [List.getElem?_take, if_pos hjK]
  rw [← h1, h, List.getElem?_append_left hj]

/-! ### Table rows and repeated builds -/

theorem gatherTable_length : gatherTable.length = 256 := by
  simp only [gatherTable, List.length_map, List.length_range]

theorem buildTimes_eq (vpermd_lut : List M256i) (h : vpermd_lut.length = 256) :
    ∀ k, buildTimes (k + 1) vpermd_lut = .ok gatherTable
  | 0 => by
    rw [buildTimes, init_gather_lut_eq _ h, ok_bind]
    rfl
  | k + 1 => by
    rw [buildTimes, init_gather_lut_eq _ h, ok_bind]
    exact buildTimes_eq gatherTable gatherTable_length k

theorem lutRow_map_vpermdRow (lut0 : List Nat) (h0 : lut0.length = 8) (m : Nat)
    (hm : m < 256) :
    (lutRow lut0 m).map vpermdRow = .ok (specRow m) := by
  rw [lutRow_eq lut0 h0 m]
  simp only [Except.map]
  rw [vpermdRow_specRow_check m hm]

theorem permute_take (v row : M256i) (k : Nat) :
    (mm256_permutevar8x32_epi32 v row).take k
      = (row.take k).map (fun i => v.getD (i % 8) 0) := by
  simp only [mm256_permutevar8x32_epi32, List.map_take]

theorem specRow_take (m : Nat) (hm : m < 256) :
    (specRow m).take (mm_popcnt_u32 (m ^^^ 0xff))
      = (List.range 8).filter (fun b => !m.testBit b) := by
  rw [popcnt_xor_check m hm]
  simp only [specRow, List.take_left]

theorem gatherTable_getD (m : Nat) (hm : m < 256) : gatherTable.getD m [] = specRow m := by
  rw [List.getD_eq_getElem?_getD, gatherTable_getElem? m hm]
  rfl

/-! ### Sequences of calls -/

theorem lutGuardCounted_erase (md : Module) (builds : Nat) :
    (lutGuardCounted md builds).map Prod.fst = lutGuard md := by
  unfold lutGuardCounted lutGuard
  split
  · dsimp only
    cases init_gather_lut md.vpermd_lut <;> rfl
  · rfl

theorem counted_erase_aux (g : Except Fault (Module × Nat))
    (run : List M256i → Except Fault (Locals × List Nat)) :
    (do
      let (md, builds) ← g
      let (st, rleMaskBlock) ← run md.vpermd_lut
      pure ((1 : Int), md, ({ scratch := st.scratch, scratchLen := st.scratchLen
                              rleMaskBlock := rleMaskBlock } : Buffers), builds)
      : Except Fault (Int × Module × Buffers × Nat)).map (fun r => (r.1, r.2.1, r.2.2.1))
    = (do
      let md ← g.map Prod.fst
      let (st, rleMaskBlock) ← run md.vpermd_lut
      pure ((1 : Int), md, ({ scratch := st.scratch, scratchLen := st.scratchLen
                              rleMaskBlock := rleMaskBlock } : Buffers))) := by
  cases g with
  | error err => rfl
  | ok r =>
    simp only [Except.map]
    rw [ok_bind, ok_bind]
    cases run r.1.vpermd_lut <;> rfl

/-- The ghost counter does not influence the run: without it the counted function is
`simd_initPixRowSimd`, faults included. -/
theorem simd_initPixRowSimdCounted_erase (e : Bool) (md : Module) (builds : Nat)
    (from_ : List Nat) (bufs : Buffers) :
    (simd_initPixRowSimdCounted e md builds from_ bufs).map (fun r => (r.1, r.2.1, r.2.2.1))
      = simd_initPixRowSimd e md from_ bufs := by
  unfold simd_initPixRowSimdCounted simd_initPixRowSimd
  cases e
  · rfl
  · simp only [Bool.not_true, Bool.false_eq_true, if_false]
    rw [← lutGuardCounted_erase md builds]
    exact counted_erase_aux (lutGuardCounted md builds)
      (fun T => maskLoop T from_ 4 0
        { x := 0, block := 0, scratchP := 0, scratchLen := 0, scratch := bufs.scratch
          rleMask := 0, newMask := 0 } bufs.rleMaskBlock)

theorem lutGuardCounted_eq (md : Module) (builds : Nat) (hmd : md.Valid) :
    lutGuardCounted md builds
      = .ok (md.after, builds + (if md.lut_initialized = 0 then 1 else 0)) := by
  unfold lutGuardCounted Module.after
  split
  · dsimp only
    rw [init_gather_lut_eq _ hmd.1]; rfl
  · rfl

theorem simd_initPixRowSimdCounted_eq (md : Module) (builds : Nat) (px : List Nat)
    (bufs : Buffers) (hmd : md.Valid) (hpx : px.length = 256)
    (hs : 256 ≤ bufs.scratch.length) (hr : bufs.rleMaskBlock.length = 4) :
    simd_initPixRowSimdCounted true md builds px bufs
      = .ok (1, md.after,
          { scratch := scratchAfter px bufs.scratch 32
            scratchLen := countAfter px 32
            rleMaskBlock := rleBlockAfter px bufs.rleMaskBlock 4 },
          builds + (if md.lut_initialized = 0 then 1 else 0)) := by
  have htbl := Module.after_table md hmd
  have hloop := maskLoop_stateAt px bufs.scratch bufs.rleMaskBlock hpx hs hr
  unfold simd_initPixRowSimdCounted
  simp only [Bool.not_true, Bool.false_eq_true, if_false]
  rw [lutGuardCounted_eq md builds hmd]
  rw [ok_bind, htbl, hloop, ok_bind]
  rfl

theorem ready_valid : Module.Valid { lut_initialized := 1, vpermd_lut := gatherTable } :=
  ⟨gatherTable_length, fun _ => init_gather_lut_eq _ (List.length_replicate 256 _)⟩

theorem callSequence_ready :
    ∀ (calls : List (List Nat × Buffers)) (builds : Nat),
      (∀ c ∈ calls, c.1.length = 256 ∧ 256 ≤ c.2.scratch.length ∧
        c.2.rleMaskBlock.length = 4) →
      callSequence { lut_initialized := 1, vpermd_lut := gatherTable } builds calls
        = .ok ({ lut_initialized := 1, vpermd_lut := gatherTable }, builds)
  | [], _, _ => rfl
  | (px, bufs) :: rest, builds, h => by
    have hc := h (px, bufs) (List.mem_cons_self _ _)
    have hrest : ∀ c ∈ rest, c.1.length = 256 ∧ 256 ≤ c.2.scratch.length ∧
        c.2.rleMaskBlock.length = 4 := fun c hc => h c (List.mem_cons_of_mem _ hc)
    rw [callSequence, simd_initPixRowSimdCounted_eq _ builds px bufs ready_valid hc.1 hc.2.1
      hc.2.2, ok_bind]
    exact callSequence_ready rest builds hrest

theorem callSequence_first (md0 : Module) (h0 : md0.lut_initialized = 0)
    (hlen : md0.vpermd_lut.length = 256) (px : List Nat) (bufs : Buffers)
    (rest : List (List Nat × Buffers)) (builds : Nat)
    (h : ∀ c ∈ (px, bufs) :: rest, c.1.length = 256 ∧ 256 ≤ c.2.scratch.length ∧
        c.2.rleMaskBlock.length = 4) :
    callSequence md0 builds ((px, bufs) :: rest)
      = .ok ({ lut_initialized := 1, vpermd_lut := gatherTable }, builds + 1) := by
  have hmd : md0.Valid := ⟨hlen, fun hne => absurd h0 hne⟩
  have hc := h (px, bufs) (List.mem_cons_self _ _)
  have hrest : ∀ c ∈ rest, c.1.length = 256 ∧ 256 ≤ c.2.scratch.length ∧
      c.2.rleMaskBlock.length = 4 := fun c hc => h c (List.mem_cons_of_mem _ hc)
  have ha : md0.after = { lut_initialized := 1, vpermd_lut := gatherTable } := by
    simp [Module.after, h0]
  rw [callSequence, simd_initPixRowSimdCounted_eq md0 builds px bufs hmd hc.1 hc.2.1 hc.2.2,
    ok_bind, ha, if_pos h0]
  exact callSequence_ready rest (builds + 1) hrest

/-! ### Assertions and reads -/

theorem stateAt_reset_zero (px scratch0 : List Nat) (n : Nat) :
    { stateAt px scratch0 n 0 with rleMask := 0, newMask := 0 } = stateAt px scratch0 n 0 := by
  simp [stateAt, rleAfter]

theorem maskBody_at (px scratch0 rle0 : List Nat) (n : Nat) (hpx : px.length = 256)
    (hs : 256 ≤ scratch0.length) (hr : rle0.length = 4) (hn : n < 4) :
    maskBody gatherTable px n (stateAt px scratch0 n 0) (rleBlockAfter px rle0 n)
      = .ok (stateAt px scratch0 n 8, rleBlockAfter px rle0 (n + 1)) :=
  maskBody_stateAt px scratch0 n _ _ hpx hs hn (stateAt_reset_zero px scratch0 n)
    (by rw [rleBlockAfter_length, hr]; exact hn)

theorem remaining_facts (n : Nat) (hn : n < 4) :
    toInt32 ((256 + (2 ^ 32 - 64 * n % 2 ^ 32)) % 2 ^ 32) = 256 - 64 * (n : Int) ∧
    (256 - 64 * (n : Int)).tmod 8 = 0 ∧
    (if (256 - 64 * (n : Int)).tdiv 8 > 8 then (8 : Int)
      else (256 - 64 * (n : Int)).tdiv 8) = 8 := by
  interval_cases n <;> decide

theorem diffMask_lt (prev curr : M256i) (hp : prev.length = 8) (hc : curr.length = 8) :
    diffMask prev curr < 256 := by
  have h := movemask_cmpeq_lt prev curr
  rw [hp, hc] at h
  simpa [diffMask, mm256_castsi256_ps] using h

theorem loadPrev_shifted (px : List Nat) (st : Locals) (hx : st.x ≠ 0) (hb : st.block ≠ 0) :
    loadPrev px st = mm256_loadu_si256 px (st.block - 1) := by
  unfold loadPrev
  obtain ⟨k, hk⟩ : ∃ k, st.x = k + 1 := ⟨st.x - 1, by omega⟩
  rw [hk]
  simp only
  rw [if_neg hb]

theorem scalarScan_chain : ∀ (l : List Nat) (p : Nat),
    List.Chain (fun a b => a ≠ b) p (scalarScan p l)
  | [], _ => List.Chain.nil
  | x :: rest, p => by
    by_cases h : x = p
    · subst h
      simpa [scalarScan] using scalarScan_chain rest x
    · simp only [scalarScan, ne_eq, h, not_false_eq_true, if_true]
      exact List.Chain.cons (fun e => h e.symm) (scalarScan_chain rest x)

/-! ### Runs with another table -/

theorem take_store (S v : List Nat) (P k : Nat) (hP : P + 8 ≤ S.length) (hv : v.length = 8)
    (hk : k ≤ 8) :
    (S.take P ++ v.take 8 ++ S.drop (P + 8)).take (P + k) = S.take P ++ v.take k := by
  have hlen : (S.take P).length = P := by rw [List.length_take]; omega
  rw [List.append_assoc, List.take_append_eq_append_take, hlen,
    List.take_of_length_le (by rw [hlen]; omega),
    List.take_append_eq_append_take, List.length_take, hv, List.take_take]
  have e1 : P + k - P = k := by omega
  have e2 : k - min 8 8 = 0 := by omega
  rw [e1, e2, List.take_zero, List.append_nil, Nat.min_eq_left hk]

/-- The loop body with a padding variant of the built table: from locals that agree with
the state before group `8n + i` it ends without fault in locals that agree with the state
before the next group. -/
theorem groupBody_alt (alt px scratch0 : List _) (n i : Nat) (a : Locals)
    (halt : PaddingVariant alt gatherTable) (hpx : px.length = 256)
    (hs : 256 ≤ scratch0.length) (hn : n < 4) (hi : i < 8)
    (hA : AgreeUpTo a (stateAt px scratch0 n i)) :
    ∃ a', groupBody alt px i a = .ok a' ∧ AgreeUpTo a' (stateAt px scratch0 n (i + 1)) := by
  obtain ⟨hx, hb, hP, hL, hR, hN, hlen, htake⟩ := hA
  have hg : 8 * n + i < 32 := by omega
  have hm := groupMask_lt px (8 * n + i) hpx hg
  have hc := groupCount_le px (8 * n + i) hpx hg
  have hk := countAfter_le px hpx (8 * n + i) (by omega)
  have hl := scratchAfter_length px scratch0 hpx hs (8 * n + i) (by omega)
  have hx' : a.x = 8 * (8 * n + i) := hx
  have hb' : a.block = 8 * (8 * n + i) := hb
  have hP' : a.scratchP = countAfter px (8 * n + i) := hP
  have hL' : a.scratchLen = countAfter px (8 * n + i) := hL
  have hR' : a.rleMask = rleAfter px n i := hR
  have hlen' : a.scratch.length = scratch0.length := by rw [hlen]; exact hl
  have htake' : a.scratch.take (countAfter px (8 * n + i))
      = (scratchAfter px scratch0 (8 * n + i)).take (countAfter px (8 * n + i)) := htake
  have hprev := loadPrev_ok px a (8 * n + i) hpx hg hx' hb'
  have hcur : mm256_loadu_si256 px a.block = .ok (currGroup px (8 * n + i)) := by
    rw [hb', loadu_ok]
    · rfl
    · omega
  have hrow := halt.2 (groupMask px (8 * n + i)) hm
  have hlook : alt[groupMask px (8 * n + i)]? = some (alt.getD (groupMask px (8 * n + i)) []) := by
    have hlt : groupMask px (8 * n + i) < alt.length := by rw [halt.1]; exact hm
    rw [List.getD_eq_getElem?_getD, List.getElem?_eq_getElem hlt]
    rfl
  have hplen : (mm256_permutevar8x32_epi32 (currGroup px (8 * n + i))
      (alt.getD (groupMask px (8 * n + i)) [])).length = 8 := by
    simp only [mm256_permutevar8x32_epi32, List.length_map]
    exact hrow.1
  have hst : mm256_storeu_si256 a.scratch a.scratchP
      (mm256_permutevar8x32_epi32 (currGroup px (8 * n + i))
        (alt.getD (groupMask px (8 * n + i)) []))
      = .ok (a.scratch.take (countAfter px (8 * n + i))
          ++ (mm256_permutevar8x32_epi32 (currGroup px (8 * n + i))
                (alt.getD (groupMask px (8 * n + i)) [])).take 8
          ++ a.scratch.drop (countAfter px (8 * n + i) + 8)) := by
    simp only [mm256_storeu_si256, hP', hlen']
    rw [if_pos (by omega)]
  unfold groupBody
  rw [hprev, hcur]
  simp only [bind, Except.bind, pure, Except.pure]
  have hmask : diffMask (prevGroup px (8 * n + i)) (currGroup px (8 * n + i))
      = groupMask px (8 * n + i) := rfl
  rw [hmask]
  have hcnt : mm_popcnt_u32 (groupMask px (8 * n + i) ^^^ 255) = groupCount px (8 * n + i) := rfl
  rw [hcnt]
  have ha1 : cAssert (decide (groupMask px (8 * n + i) < 256)) = .ok () := by
    simp [cAssert, hm]
  have ha2 : cAssert (decide (groupCount px (8 * n + i) ≤ 8)) = .ok () := by
    simp [cAssert, hc]
  rw [ha1, hlook, ha2]
  simp only []
  rw [hst]
  simp only []
  refine ⟨_, rfl, ?_⟩
  have e1 : 8 * n + (i + 1) = 8 * n + i + 1 := rfl
  have e2 : countAfter px (8 * n + i + 1)
      = countAfter px (8 * n + i) + groupCount px (8 * n + i) := rfl
  have e3 : rleAfter px n (i + 1)
      = rleAfter px n i ||| ((groupMask px (8 * n + i) <<< (i * 8)) % 2 ^ 64) := rfl
  have e4 : scratchAfter px scratch0 (8 * n + i + 1)
      = (scratchAfter px scratch0 (8 * n + i)).take (countAfter px (8 * n + i))
        ++ (groupPacked px (8 * n + i)).take 8
        ++ (scratchAfter px scratch0 (8 * n + i)).drop (countAfter px (8 * n + i) + 8) := rfl
  have hpk : (mm256_permutevar8x32_epi32 (currGroup px (8 * n + i))
        (alt.getD (groupMask px (8 * n + i)) [])).take (groupCount px (8 * n + i))
      = (groupPacked px (8 * n + i)).take (groupCount px (8 * n + i)) := by
    have h3 := hrow.2.2
    rw [gatherTable_getD _ hm] at h3
    rw [permute_take, groupPacked, permute_take]
    exact congrArg _ h3
  simp only [AgreeUpTo, stateAt, e1, e2, e3, hx', hb', hP', hL', hR']
  refine ⟨by omega, by omega, trivial, by omega, trivial, by simp, ?_, ?_⟩
  · simp only [List.length_append, List.length_take, List.length_drop, hplen, hlen',
      scratchAfter_length px scratch0 hpx hs (8 * n + i + 1) (by omega)]
    omega
  · rw [e4, take_store _ _ _ _ (by omega) hplen hc,
      take_store _ _ _ _ (by omega) (groupPacked_length px _) hc, htake', hpk]

theorem groupLoop_alt (alt px scratch0 : List _) (n : Nat)
    (halt : PaddingVariant alt gatherTable) (hpx : px.length = 256)
    (hs : 256 ≤ scratch0.length) (hn : n < 4) :
    ∀ (k i : Nat) (a : Locals), i + k ≤ 8 → AgreeUpTo a (stateAt px scratch0 n i) →
      ∃ a', groupLoop alt px k i a = .ok a' ∧ AgreeUpTo a' (stateAt px scratch0 n (i + k))
  | 0, i, a, _, hA => ⟨a, rfl, hA⟩
  | k + 1, i, a, h, hA => by
    obtain ⟨a1, h1, hA1⟩ := groupBody_alt alt px scratch0 n i a halt hpx hs hn (by omega) hA
    obtain ⟨a2, h2, hA2⟩ := groupLoop_alt alt px scratch0 n halt hpx hs hn k (i + 1) a1
      (by omega) hA1
    refine ⟨a2, ?_, ?_⟩
    · rw [groupLoop, h1, ok_bind, h2]
    · have e : i + 1 + k = i + (k + 1) := by omega
      rw [← e]
      exact hA2

theorem AgreeUpTo.reset {a b : Locals} (h : AgreeUpTo a b) :
    AgreeUpTo { a with rleMask := 0, newMask := 0 } { b with rleMask := 0, newMask := 0 } := by
  obtain ⟨hx, hb, hP, hL, _, _, hlen, htake⟩ := h
  exact ⟨hx, hb, hP, hL, rfl, rfl, hlen, htake⟩

theorem maskBody_alt (alt px scratch0 : List _) (n : Nat) (a : Locals) (rle : List Nat)
    (halt : PaddingVariant alt gatherTable) (hpx : px.length = 256)
    (hs : 256 ≤ scratch0.length) (hn : n < 4)
    (hA : AgreeUpTo { a with rleMask := 0, newMask := 0 } (stateAt px scratch0 n 0))
    (hr : n < rle.length) :
    ∃ a', maskBody alt px n a rle = .ok (a', rle.set n (rleAfter px n 8)) ∧
      AgreeUpTo a' (stateAt px scratch0 n 8) := by
  have hx : a.x = 64 * n := by
    have h := hA.1
    simp only [stateAt] at h
    omega
  obtain ⟨a', h1, hA'⟩ := groupLoop_alt alt px scratch0 n halt hpx hs hn 8 0 _ (by omega) hA
  have hf := remaining_facts n hn
  have hassert : cAssert (decide ((256 - 64 * (n : Int)).tmod 8 = 0)) = .ok () := by
    simp [cAssert, hf.2.1]
  have hblocks : (if (256 - 64 * (n : Int)).tdiv 8 > 8 then (8 : Int)
      else (256 - 64 * (n : Int)).tdiv 8).toNat = 8 := by
    rw [hf.2.2]; rfl
  refine ⟨a', ?_, hA'⟩
  rw [hx] at h1
  unfold maskBody
  simp only []
  rw [hx, hf.1]
  simp only [hassert, bind, Except.bind, hblocks]
  rw [h1]
  simp only [hr, if_true, pure, Except.pure]
  have hR : a'.rleMask = rleAfter px n 8 := hA'.2.2.2.2.1
  rw [hR]

theorem maskLoop_alt (alt px scratch0 rle0 : List _)
    (halt : PaddingVariant alt gatherTable) (hpx : px.length = 256)
    (hs : 256 ≤ scratch0.length) (hr : rle0.length = 4) :
    ∀ (k n : Nat) (a : Locals), n + k < 4 →
      AgreeUpTo { a with rleMask := 0, newMask := 0 } (stateAt px scratch0 n 0) →
      ∃ a', maskLoop alt px (k + 1) n a (rleBlockAfter px rle0 n)
          = .ok (a', rleBlockAfter px rle0 (n + k + 1)) ∧
        AgreeUpTo a' (stateAt px scratch0 (n + k) 8)
  | 0, n, a, h, hA => by
    obtain ⟨a', h1, hA'⟩ := maskBody_alt alt px scratch0 n a (rleBlockAfter px rle0 n) halt
      hpx hs (by omega) hA (by rw [rleBlockAfter_length, hr]; omega)
    refine ⟨a', ?_, hA'⟩
    rw [maskLoop, h1, ok_bind]
    rfl
  | k + 1, n, a, h, hA => by
    obtain ⟨a1, h1, hA1⟩ := maskBody_alt alt px scratch0 n a (rleBlockAfter px rle0 n) halt
      hpx hs (by omega) hA (by rw [rleBlockAfter_length, hr]; omega)
    have hA1' := hA1.reset
    rw [stateAt_reset] at hA1'
    obtain ⟨a2, h2, hA2⟩ := maskLoop_alt alt px scratch0 rle0 halt hpx hs hr k (n + 1) a1
      (by omega) hA1'
    have e : n + 1 + k = n + (k + 1) := by omega
    rw [e] at h2 hA2
    refine ⟨a2, ?_, hA2⟩
    rw [maskLoop, h1, ok_bind]
    exact h2

theorem agree_start (px scratch0 : List Nat) :
    AgreeUpTo
      { ({ x := 0, block := 0, scratchP := 0, scratchLen := 0, scratch := scratch0
           rleMask := 0, newMask := 0 } : Locals) with rleMask := 0, newMask := 0 }
      (stateAt px scratch0 0 0) := by
  rw [stateAt_zero]
  exact ⟨rfl, rfl, rfl, rfl, rfl, rfl, rfl, rfl⟩

/-- The run with the flag set and a padding variant of the built table in the static
state: the table is left alone and the final locals agree with those of the run with the
built table. -/
theorem simd_initPixRowSimd_alt (alt px : List _) (bufs : Buffers)
    (halt : PaddingVariant alt gatherTable) (hpx : px.length = 256)
    (hs : 256 ≤ bufs.scratch.length) (hr : bufs.rleMaskBlock.length = 4) :
    ∃ a', AgreeUpTo a' (stateAt px bufs.scratch 3 8) ∧
      simd_initPixRowSimd true { lut_initialized := 1, vpermd_lut := alt } px bufs
        = .ok (1, { lut_initialized := 1, vpermd_lut := alt },
            { scratch := a'.scratch, scratchLen := a'.scratchLen
              rleMaskBlock := rleBlockAfter px bufs.rleMaskBlock 4 }) := by
  obtain ⟨a', h1, hA⟩ := maskLoop_alt alt px bufs.scratch bufs.rleMaskBlock halt hpx hs hr 3 0 _
    (by omega) (agree_start px bufs.scratch)
  refine ⟨a', hA, ?_⟩
  have hg : lutGuard { lut_initialized := 1, vpermd_lut := alt }
      = .ok { lut_initialized := 1, vpermd_lut := alt } := rfl
  unfold simd_initPixRowSimd
  simp only [Bool.not_true, Bool.false_eq_true, if_false]
  rw [hg, ok_bind]
  have h1' : maskLoop alt px 4 0
      { x := 0, block := 0, scratchP := 0, scratchLen := 0, scratch := bufs.scratch
        rleMask := 0, newMask := 0 } bufs.rleMaskBlock
      = .ok (a', rleBlockAfter px bufs.rleMaskBlock 4) := h1
  rw [h1', ok_bind]
  rfl

/-! ### Interleaved first calls -/

theorem threadStep_settled (tbl : List M256i) (builds : Nat) (t : Thread)
    (ht : t.Settled tbl) :
    ∃ t', threadStep { lut_initialized := 1, vpermd_lut := tbl, builds := builds } t
        = .ok ({ lut_initialized := 1, vpermd_lut := tbl, builds := builds }, t') ∧
      t'.Settled tbl := by
  obtain ⟨hpc, hread⟩ := ht
  rcases hpc with h | h | h
  · exact ⟨{ t with pc := .encode }, by simp [threadStep, h], Or.inr (Or.inl rfl), hread⟩
  · exact ⟨{ pc := .done, tableRead := some tbl }, by simp [threadStep, h],
      Or.inr (Or.inr rfl), Or.inr rfl⟩
  · exact ⟨t, by simp [threadStep, h], Or.inr (Or.inr h), hread⟩

/-- Once the flag is set, the table built and every thread outside the first-use block,
every schedule leaves the shared variables as they are and the threads settled. -/
theorem runSchedule_settled (tbl : List M256i) (builds : Nat) :
    ∀ (schedule : List Nat) (threads : List Thread), (∀ t ∈ threads, t.Settled tbl) →
      ∃ threads',
        runSchedule { lut_initialized := 1, vpermd_lut := tbl, builds := builds } threads schedule
          = .ok ({ lut_initialized := 1, vpermd_lut := tbl, builds := builds }, threads') ∧
        threads'.length = threads.length ∧ ∀ t ∈ threads', t.Settled tbl
  | [], threads, h => ⟨threads, rfl, rfl, h⟩
  | tid :: rest, threads, h => by
    rw [runSchedule]
    cases hget : threads[tid]? with
    | none =>
      simp only []
      exact runSchedule_settled tbl builds rest threads h
    | some t =>
      simp only []
      have hmem : t ∈ threads := List.getElem?_mem hget
      obtain ⟨t', hstep, ht'⟩ := threadStep_settled tbl builds t (h t hmem)
      have hset : ∀ u ∈ threads.set tid t', u.Settled tbl := by
        intro u hu
        rcases List.mem_or_eq_of_mem_set hu with hu | hu
        · exact h u hu
        · rw [hu]; exact ht'
      obtain ⟨threads', hrun, hlen, hall⟩ :=
        runSchedule_settled tbl builds rest (threads.set tid t') hset
      refine ⟨threads', ?_, ?_, hall⟩
      · rw [hstep, ok_bind]
        exact hrun
      · rw [hlen, List.length_set]

theorem ok_of_okAnd {ε α : Type} {x : Except ε α} {p : α → Bool} (h : okAnd x p = true) :
    ∃ a, x = .ok a ∧ p a = true := by
  cases x with
  | error e => simp [okAnd] at h
  | ok a => exact ⟨a, rfl, h⟩

theorem early_read_check :
    okAnd (runSchedule Shared.initial [Thread.fresh, Thread.fresh] [0, 0, 1, 1])
      (fun r =>
        decide (r.1.lut_initialized = 1 ∧ r.1.builds = 0 ∧
          (r.2.getD 1 Thread.fresh).pc = .done ∧
          (r.2.getD 1 Thread.fresh).tableRead
            = some (List.replicate 256 (List.replicate 8 0)))) = true := by
  decide!

theorem double_build_check :
    okAnd (runSchedule Shared.initial [Thread.fresh, Thread.fresh] [0, 1, 0, 1, 0, 1])
      (fun r => decide (r.1.builds = 2)) = true := by
  decide!

theorem runSchedule_warmup (others : Nat) (schedule : List Nat) :
    runSchedule Shared.initial (List.replicate (others + 1) Thread.fresh)
        (0 :: 0 :: 0 :: schedule)
      = runSchedule { lut_initialized := 1, vpermd_lut := gatherTable, builds := 1 }
          ({ pc := .encode, tableRead := none } :: List.replicate others Thread.fresh)
          schedule := by
  have hb : init_gather_lut Shared.initial.vpermd_lut = .ok gatherTable :=
    init_gather_lut_eq _ (List.length_replicate 256 _)
  have hb' : init_gather_lut
      ({ lut_initialized := 1, vpermd_lut := Shared.initial.vpermd_lut,
         builds := Shared.initial.builds } : Shared).vpermd_lut = .ok gatherTable := hb
  rw [List.replicate_succ]
  rw [runSchedule]
  simp only [List.getElem?_cons_zero, threadStep, Thread.fresh, Shared.initial, if_true,
    ok_bind, List.set_cons_zero]
  rw [runSchedule]
  simp only [List.getElem?_cons_zero, threadStep, ok_bind, List.set_cons_zero]
  rw [runSchedule]
  simp only [List.getElem?_cons_zero, threadStep, List.set_cons_zero]
  have hb2 : init_gather_lut (List.replicate 256 (List.replicate 8 0)) = .ok gatherTable := hb
  rw [hb2, ok_bind]
  rfl

/-! ## The properties of the specification -/

/-- C1: for every 256-pixel scanline, after `simd_initPixRowSimd` with SIMD enabled the
first `*scratchLen` entries of `scratch` are, in order, the output of the scalar scan of
the whole scanline, and `*scratchLen` is the length of that output. -/
theorem C1_scratch_refines_scalarScan (md : Module) (from_ : List Nat) (bufs : Buffers)
    (hmd : md.Valid) (hfrom : from_.length = 256) (hscratch : 256 ≤ bufs.scratch.length)
    (hrle : bufs.rleMaskBlock.length = 4) :
    ∃ md' out, simd_initPixRowSimd true md from_ bufs = .ok (1, md', out) ∧
      out.scratch.take out.scratchLen = scalarScan 0 from_ ∧
      out.scratchLen = (scalarScan 0 from_).length :=
  ⟨_, _, simd_initPixRowSimd_eq md from_ bufs hmd hfrom hscratch hrle,
    out_take from_ bufs.scratch hfrom hscratch, out_len from_ hfrom⟩

theorem C1_scratch_refines_scalarScan_witness :
    Module.initial.Valid ∧ (List.replicate 256 7).length = 256 ∧
    ∃ md' out,
      simd_initPixRowSimd true Module.initial (List.replicate 256 7)
          { scratch := List.replicate 256 0, scratchLen := 0, rleMaskBlock := [0, 0, 0, 0] }
        = .ok (1, md', out) ∧
      out.scratch.take out.scratchLen = scalarScan 0 (List.replicate 256 7) ∧
      out.scratchLen = (scalarScan 0 (List.replicate 256 7)).length :=
  ⟨⟨by simp only [Module.initial, List.length_replicate], fun h => absurd rfl h⟩,
    by simp only [List.length_replicate],
    C1_scratch_refines_scalarScan Module.initial (List.replicate 256 7)
      { scratch := List.replicate 256 0, scratchLen := 0, rleMaskBlock := [0, 0, 0, 0] }
      ⟨by simp only [Module.initial, List.length_replicate], fun h => absurd rfl h⟩
      (by simp only [List.length_replicate])
      (by simp only [List.length_replicate, le_refl]) rfl⟩

/-- C2: for every 256-pixel scanline and every pixel index `i < 256`, bit `i mod 64` of
`rleMaskBlock[i / 64]` written by `simd_initPixRowSimd` is 1 exactly when pixel `i` repeats
its left neighbour: pixel 0 when it equals the sentinel 0, pixel `i > 0` when it equals
pixel `i - 1`. -/
theorem C2_rleMaskBlock_bits (md : Module) (from_ : List Nat) (bufs : Buffers)
    (hmd : md.Valid) (hfrom : from_.length = 256) (hscratch : 256 ≤ bufs.scratch.length)
    (hrle : bufs.rleMaskBlock.length = 4) :
    ∃ md' out, simd_initPixRowSimd true md from_ bufs = .ok (1, md', out) ∧
      out.rleMaskBlock.length = 4 ∧
      ∀ i, i < 256 →
        ((out.rleMaskBlock.getD (i / 64) 0).testBit (i % 64) = true ↔
          (if i = 0 then from_.getD 0 0 = 0 else from_.getD i 0 = from_.getD (i - 1) 0)) := by
  refine ⟨_, _, simd_initPixRowSimd_eq md from_ bufs hmd hfrom hscratch hrle, ?_, ?_⟩
  · simp [rleBlockAfter_length, hrle]
  · intro i hi
    simp only []
    rw [rleBlock_testBit from_ bufs.rleMaskBlock hfrom hrle i hi, dup]
    by_cases h0 : i = 0
    · subst h0; simp
    · simp [h0]

theorem C2_rleMaskBlock_bits_witness :
    Module.initial.Valid ∧ (List.replicate 256 7).length = 256 ∧
    ∃ md' out,
      simd_initPixRowSimd true Module.initial (List.replicate 256 7)
          { scratch := List.replicate 256 0, scratchLen := 0, rleMaskBlock := [0, 0, 0, 0] }
        = .ok (1, md', out) ∧
      out.rleMaskBlock.length = 4 ∧
      ∀ i, i < 256 →
        ((out.rleMaskBlock.getD (i / 64) 0).testBit (i % 64) = true ↔
          (if i = 0 then (List.replicate 256 7).getD 0 0 = 0
            else (List.replicate 256 7).getD i 0 = (List.replicate 256 7).getD (i - 1) 0)) :=
  ⟨⟨by simp only [Module.initial, List.length_replicate], fun h => absurd rfl h⟩,
    by simp only [List.length_replicate],
    C2_rleMaskBlock_bits Module.initial (List.replicate 256 7)
      { scratch := List.replicate 256 0, scratchLen := 0, rleMaskBlock := [0, 0, 0, 0] }
      ⟨by simp only [Module.initial, List.length_replicate], fun h => absurd rfl h⟩
      (by simp only [List.length_replicate])
      (by simp only [List.length_replicate, le_refl]) rfl⟩

/-- C3: round trip. For every 256-pixel scanline, the decoder of the specification, run on
the `rleMaskBlock` and the first `*scratchLen` entries of `scratch` that
`simd_initPixRowSimd` produced, reconstructs exactly the scanline and consumes exactly
`*scratchLen` compacted entries. -/
theorem C3_decode_roundtrip (md : Module) (from_ : List Nat) (bufs : Buffers)
    (hmd : md.Valid) (hfrom : from_.length = 256) (hscratch : 256 ≤ bufs.scratch.length)
    (hrle : bufs.rleMaskBlock.length = 4) :
    ∃ md' out, simd_initPixRowSimd true md from_ bufs = .ok (1, md', out) ∧
      decodeRow out.rleMaskBlock (out.scratch.take out.scratchLen)
        = some (from_, out.scratchLen) := by
  refine ⟨_, _, simd_initPixRowSimd_eq md from_ bufs hmd hfrom hscratch hrle, ?_⟩
  have h := decodeLoop_spec from_ (rleBlockAfter from_ bufs.rleMaskBlock 4) hfrom
    (rleBlock_testBit from_ bufs.rleMaskBlock hfrom hrle) 256 0 rfl
  simp only []
  rw [scratchAfter_take from_ bufs.scratch hfrom hscratch 32 (by omega),
    countAfter_eq from_ hfrom 32 (by omega)]
  simpa [decodeRow, keptIn] using h

theorem C3_decode_roundtrip_witness :
    Module.initial.Valid ∧ (List.replicate 256 7).length = 256 ∧
    ∃ md' out,
      simd_initPixRowSimd true Module.initial (List.replicate 256 7)
          { scratch := List.replicate 256 0, scratchLen := 0, rleMaskBlock := [0, 0, 0, 0] }
        = .ok (1, md', out) ∧
      decodeRow out.rleMaskBlock (out.scratch.take out.scratchLen)
        = some (List.replicate 256 7, out.scratchLen) :=
  ⟨⟨by simp only [Module.initial, List.length_replicate], fun h => absurd rfl h⟩,
    by simp only [List.length_replicate],
    C3_decode_roundtrip Module.initial (List.replicate 256 7)
      { scratch := List.replicate 256 0, scratchLen := 0, rleMaskBlock := [0, 0, 0, 0] }
      ⟨by simp only [Module.initial, List.length_replicate], fun h => absurd rfl h⟩
      (by simp only [List.length_replicate])
      (by simp only [List.length_replicate, le_refl]) rfl⟩

/-- C4: LUT correctness. After `init_gather_lut` (run on any prior content of the 256-entry
table) every row `vpermd_lut[m]`, `m < 256`, has eight lanes, each lane holding only its
low byte; the first `popcount(~m & 0xFF)` lanes are the positions of the unset bits of `m`
in ascending order and every later lane is 0. -/
theorem C4_lut_rows (vpermd_lut : List M256i) (hlen : vpermd_lut.length = 256) :
    ∃ tbl, init_gather_lut vpermd_lut = .ok tbl ∧ tbl.length = 256 ∧
      ∀ m, m < 256 →
        ∃ row, tbl[m]? = some row ∧ row.length = 8 ∧
          (∀ j, j < 8 → row.getD j 0 < 256) ∧
          row.take (mm_popcnt_u32 ((2 ^ 32 - 1 - m) &&& 0xFF))
            = (List.range 8).filter (fun b => !m.testBit b) ∧
          (∀ j, j < 8 → mm_popcnt_u32 ((2 ^ 32 - 1 - m) &&& 0xFF) ≤ j → row.getD j 0 = 0) := by
  refine ⟨gatherTable, init_gather_lut_eq vpermd_lut hlen, ?_, ?_⟩
  · simp only [gatherTable, List.length_map, List.length_range]
  · intro m hm
    have h := specRow_check m hm
    exact ⟨specRow m, gatherTable_getElem? m hm, h.1, h.2.1, h.2.2.1, h.2.2.2⟩

theorem C4_lut_rows_witness :
    (List.replicate 256 (List.replicate 8 0) : List M256i).length = 256 ∧
    ∃ tbl, init_gather_lut (List.replicate 256 (List.replicate 8 0)) = .ok tbl ∧
      tbl.length = 256 ∧
      ∀ m, m < 256 →
        ∃ row, tbl[m]? = some row ∧ row.length = 8 ∧
          (∀ j, j < 8 → row.getD j 0 < 256) ∧
          row.take (mm_popcnt_u32 ((2 ^ 32 - 1 - m) &&& 0xFF))
            = (List.range 8).filter (fun b => !m.testBit b) ∧
          (∀ j, j < 8 → mm_popcnt_u32 ((2 ^ 32 - 1 - m) &&& 0xFF) ≤ j → row.getD j 0 = 0) :=
  ⟨by simp only [List.length_replicate],
    C4_lut_rows (List.replicate 256 (List.replicate 8 0))
      (by simp only [List.length_replicate])⟩

/-- C5: for every 256-pixel scanline the count returned in `*scratchLen` is the sum over
the 32 groups of `popcount(groupMask XOR 0xFF)`, the group mask being the byte of
`rleMaskBlock` that belongs to the group; this is the number of zero bits among the 256
bits of the four `rleMaskBlock` words, that is 256 minus their total popcount; in
particular `*scratchLen` is at most 256. -/
theorem C5_scratchLen_counts_zero_bits (md : Module) (from_ : List Nat) (bufs : Buffers)
    (hmd : md.Valid) (hfrom : from_.length = 256) (hscratch : 256 ≤ bufs.scratch.length)
    (hrle : bufs.rleMaskBlock.length = 4) :
    ∃ md' out, simd_initPixRowSimd true md from_ bufs = .ok (1, md', out) ∧
      (∀ g, g < 32 →
        groupMask from_ g = (out.rleMaskBlock.getD (g / 8) 0 >>> (8 * (g % 8))) % 256) ∧
      (∀ n, n < 4 → out.rleMaskBlock.getD n 0 < 2 ^ 64) ∧
      out.scratchLen
        = ((List.range 32).map (fun g => mm_popcnt_u32 (groupMask from_ g ^^^ 0xff))).sum ∧
      out.scratchLen
          + ((List.range 4).map (fun n => popcnt 64 (out.rleMaskBlock.getD n 0))).sum = 256 ∧
      out.scratchLen
        = 256 - ((List.range 4).map (fun n => popcnt 64 (out.rleMaskBlock.getD n 0))).sum ∧
      0 ≤ out.scratchLen ∧ out.scratchLen ≤ 256 := by
  have hword : ∀ n, n < 4 →
      (rleBlockAfter from_ bufs.rleMaskBlock 4).getD n 0 = rleAfter from_ n 8 := by
    intro n hn
    rw [rleBlockAfter_four from_ bufs.rleMaskBlock hrle]
    interval_cases n <;> rfl
  have hsum : countAfter from_ 32
      + ((List.range 4).map
          (fun n => popcnt 64 ((rleBlockAfter from_ bufs.rleMaskBlock 4).getD n 0))).sum
        = 256 := by
    have h0 := rleAfter_popcnt from_ 0 hfrom (by omega)
    have h1 := rleAfter_popcnt from_ 1 hfrom (by omega)
    have h2 := rleAfter_popcnt from_ 2 hfrom (by omega)
    have h3 := rleAfter_popcnt from_ 3 hfrom (by omega)
    have hk := keptIn_blocks from_
    have hc := countAfter_eq from_ hfrom 32 (by omega)
    have e : 8 * 32 = 256 := by rfl
    rw [e] at hc
    have hl : (List.range 4).map
        (fun n => popcnt 64 ((rleBlockAfter from_ bufs.rleMaskBlock 4).getD n 0))
        = [popcnt 64 (rleAfter from_ 0 8), popcnt 64 (rleAfter from_ 1 8),
            popcnt 64 (rleAfter from_ 2 8), popcnt 64 (rleAfter from_ 3 8)] := by
      rw [show List.range 4 = [0, 1, 2, 3] from rfl]
      simp only [List.map_cons, List.map_nil]
      rw [hword 0 (by omega), hword 1 (by omega), hword 2 (by omega), hword 3 (by omega)]
    rw [hl]
    simp only [List.sum_cons, List.sum_nil]
    omega
  refine ⟨_, _, simd_initPixRowSimd_eq md from_ bufs hmd hfrom hscratch hrle,
    ?_, ?_, ?_, hsum, ?_, Nat.zero_le _, ?_⟩
  · intro g hg
    simp only []
    rw [hword (g / 8) (by omega)]
    exact groupMask_eq_byte from_ g hfrom hg
  · intro n hn
    simp only []
    rw [hword n hn]
    exact rleAfter_lt from_ n hfrom hn
  · exact countAfter_eq_sum from_ 32
  · simp only [] at hsum ⊢
    omega
  · simp only [] at hsum ⊢
    omega

theorem C5_scratchLen_counts_zero_bits_witness :
    Module.initial.Valid ∧ (List.replicate 256 7).length = 256 ∧
    ∃ md' out,
      simd_initPixRowSimd true Module.initial (List.replicate 256 7)
          { scratch := List.replicate 256 0, scratchLen := 0, rleMaskBlock := [0, 0, 0, 0] }
        = .ok (1, md', out) ∧
      (∀ g, g < 32 →
        groupMask (List.replicate 256 7) g
          = (out.rleMaskBlock.getD (g / 8) 0 >>> (8 * (g % 8))) % 256) ∧
      (∀ n, n < 4 → out.rleMaskBlock.getD n 0 < 2 ^ 64) ∧
      out.scratchLen
        = ((List.range 32).map
            (fun g => mm_popcnt_u32 (groupMask (List.replicate 256 7) g ^^^ 0xff))).sum ∧
      out.scratchLen
          + ((List.range 4).map (fun n => popcnt 64 (out.rleMaskBlock.getD n 0))).sum = 256 ∧
      out.scratchLen
        = 256 - ((List.range 4).map (fun n => popcnt 64 (out.rleMaskBlock.getD n 0))).sum ∧
      0 ≤ out.scratchLen ∧ out.scratchLen ≤ 256 :=
  ⟨⟨by simp only [Module.initial, List.length_replicate], fun h => absurd rfl h⟩,
    by simp only [List.length_replicate],
    C5_scratchLen_counts_zero_bits Module.initial (List.replicate 256 7)
      { scratch := List.replicate 256 0, scratchLen := 0, rleMaskBlock := [0, 0, 0, 0] }
      ⟨by simp only [Module.initial, List.length_replicate], fun h => absurd rfl h⟩
      (by simp only [List.length_replicate])
      (by simp only [List.length_replicate, le_refl]) rfl⟩

/-- C6: output-buffer safety. For every 256-pixel scanline and a scratch buffer of capacity
exactly 256, the run ends without fault, so no bounds-checked store left the buffer; the
store of group `g = 8n + i` is made at the running count before the group, which is at
most `8g`, so the eight words written lie within indices 0..255. -/
theorem C6_stores_in_bounds (md : Module) (from_ : List Nat) (bufs : Buffers)
    (hmd : md.Valid) (hfrom : from_.length = 256) (hscratch : bufs.scratch.length = 256)
    (hrle : bufs.rleMaskBlock.length = 4) :
    (∃ md' out, simd_initPixRowSimd true md from_ bufs = .ok (1, md', out) ∧
      out.scratch.length = 256 ∧
      maskLoop md'.vpermd_lut from_ 4 0
          { x := 0, block := 0, scratchP := 0, scratchLen := 0, scratch := bufs.scratch
            rleMask := 0, newMask := 0 } bufs.rleMaskBlock
        = .ok (stateAt from_ bufs.scratch 3 8, out.rleMaskBlock) ∧
      ∀ n i, n < 4 → i < 8 →
        groupBody md'.vpermd_lut from_ i (stateAt from_ bufs.scratch n i)
          = .ok (stateAt from_ bufs.scratch n (i + 1)) ∧
        (stateAt from_ bufs.scratch n i).scratchP ≤ 8 * (8 * n + i) ∧
        (stateAt from_ bufs.scratch n i).scratchP + 7 ≤ 255 ∧
        (stateAt from_ bufs.scratch n i).scratch.length = 256 ∧
        mm256_storeu_si256 (stateAt from_ bufs.scratch n i).scratch
            (stateAt from_ bufs.scratch n i).scratchP (groupPacked from_ (8 * n + i))
          = .ok (stateAt from_ bufs.scratch n (i + 1)).scratch) ∧
    simd_initPixRowSimd true md from_ bufs ≠ .error .storeOutOfBounds := by
  have hs : 256 ≤ bufs.scratch.length := Nat.le_of_eq hscratch.symm
  have hrun := simd_initPixRowSimd_eq md from_ bufs hmd hfrom hs hrle
  have htbl := Module.after_table md hmd
  refine ⟨⟨_, _, hrun, ?_, ?_, ?_⟩, ?_⟩
  · simp only []
    rw [scratchAfter_length from_ bufs.scratch hfrom hs 32 (by omega), hscratch]
  · rw [htbl]
    exact maskLoop_stateAt from_ bufs.scratch bufs.rleMaskBlock hfrom hs hrle
  · intro n i hn hi
    have hk := countAfter_le from_ hfrom (8 * n + i) (by omega)
    have hl := scratchAfter_length from_ bufs.scratch hfrom hs (8 * n + i) (by omega)
    refine ⟨?_, ?_, ?_, ?_, store_stateAt from_ bufs.scratch n i hfrom hs hn hi⟩
    · rw [htbl]
      exact groupBody_stateAt from_ bufs.scratch n i hfrom hs hn hi
    · exact hk
    · simp only [stateAt]; omega
    · simp only [stateAt]; omega
  · rw [hrun]
    intro h
    cases h

theorem C6_stores_in_bounds_witness :
    (List.replicate 256 7).length = 256 ∧ (List.replicate 256 0).length = 256 ∧
    ((∃ md' out,
      simd_initPixRowSimd true Module.initial (List.replicate 256 7)
          { scratch := List.replicate 256 0, scratchLen := 0, rleMaskBlock := [0, 0, 0, 0] }
        = .ok (1, md', out) ∧
      out.scratch.length = 256 ∧
      maskLoop md'.vpermd_lut (List.replicate 256 7) 4 0
          { x := 0, block := 0, scratchP := 0, scratchLen := 0
            scratch := List.replicate 256 0, rleMask := 0, newMask := 0 } [0, 0, 0, 0]
        = .ok (stateAt (List.replicate 256 7) (List.replicate 256 0) 3 8, out.rleMaskBlock) ∧
      ∀ n i, n < 4 → i < 8 →
        groupBody md'.vpermd_lut (List.replicate 256 7) i
            (stateAt (List.replicate 256 7) (List.replicate 256 0) n i)
          = .ok (stateAt (List.replicate 256 7) (List.replicate 256 0) n (i + 1)) ∧
        (stateAt (List.replicate 256 7) (List.replicate 256 0) n i).scratchP
          ≤ 8 * (8 * n + i) ∧
        (stateAt (List.replicate 256 7) (List.replicate 256 0) n i).scratchP + 7 ≤ 255 ∧
        (stateAt (List.replicate 256 7) (List.replicate 256 0) n i).scratch.length = 256 ∧
        mm256_storeu_si256 (stateAt (List.replicate 256 7) (List.replicate 256 0) n i).scratch
            (stateAt (List.replicate 256 7) (List.replicate 256 0) n i).scratchP
            (groupPacked (List.replicate 256 7) (8 * n + i))
          = .ok (stateAt (List.replicate 256 7) (List.replicate 256 0) n (i + 1)).scratch) ∧
    simd_initPixRowSimd true Module.initial (List.replicate 256 7)
        { scratch := List.replicate 256 0, scratchLen := 0, rleMaskBlock := [0, 0, 0, 0] }
      ≠ .error .storeOutOfBounds) :=
  ⟨by simp only [List.length_replicate], by simp only [List.length_replicate],
    C6_stores_in_bounds Module.initial (List.replicate 256 7)
      { scratch := List.replicate 256 0, scratchLen := 0, rleMaskBlock := [0, 0, 0, 0] }
      ⟨by simp only [Module.initial, List.length_replicate], fun h => absurd rfl h⟩
      (by simp only [List.length_replicate])
      (by simp only [List.length_replicate]) rfl⟩

set_option maxRecDepth 100000 in
/-- C7, as stated, fails: on the all-zero scanline with a scratch buffer filled with 1 the
call returns `*scratchLen = 0`, yet slot 0 (an index not below `*scratchLen`) holds 0
afterwards: the 8-word store of a group writes all eight gathered lanes. -/
theorem C7_counterexample :
    ∃ md' out,
      simd_initPixRowSimd true Module.initial (List.replicate 256 0)
          { scratch := List.replicate 256 1, scratchLen := 0, rleMaskBlock := [0, 0, 0, 0] }
        = .ok (1, md', out) ∧
      out.scratchLen = 0 ∧ out.scratch[0]? = some 0 ∧
      (List.replicate 256 1)[0]? = some 1 :=
  ⟨_, _, rfl, rfl, rfl, rfl⟩

/-- C7, amended: for every 256-pixel scanline and every initial content of `scratch`, each
scratch slot at index at least `*scratchLen + 8` holds after `simd_initPixRowSimd` the
value it held before the call, and the buffer keeps its length. -/
theorem C7_scratch_frame (md : Module) (from_ : List Nat) (bufs : Buffers)
    (hmd : md.Valid) (hfrom : from_.length = 256) (hscratch : 256 ≤ bufs.scratch.length)
    (hrle : bufs.rleMaskBlock.length = 4) :
    ∃ md' out, simd_initPixRowSimd true md from_ bufs = .ok (1, md', out) ∧
      out.scratch.length = bufs.scratch.length ∧
      ∀ k, out.scratchLen + 8 ≤ k → out.scratch[k]? = bufs.scratch[k]? :=
  ⟨_, _, simd_initPixRowSimd_eq md from_ bufs hmd hfrom hscratch hrle,
    scratchAfter_length from_ bufs.scratch hfrom hscratch 32 (by omega),
    scratchAfter_frame from_ bufs.scratch hfrom hscratch 32 (by omega)⟩

theorem C7_scratch_frame_witness :
    Module.initial.Valid ∧ (List.replicate 256 0).length = 256 ∧
    256 ≤ (List.replicate 300 1).length ∧
    ∃ md' out,
      simd_initPixRowSimd true Module.initial (List.replicate 256 0)
          { scratch := List.replicate 300 1, scratchLen := 0, rleMaskBlock := [0, 0, 0, 0] }
        = .ok (1, md', out) ∧
      out.scratch.length = (List.replicate 300 1).length ∧
      ∀ k, out.scratchLen + 8 ≤ k → out.scratch[k]? = (List.replicate 300 1)[k]? :=
  ⟨⟨by simp only [Module.initial, List.length_replicate], fun h => absurd rfl h⟩,
    by simp only [List.length_replicate],
    by simp only [List.length_replicate]; decide,
    C7_scratch_frame Module.initial (List.replicate 256 0)
      { scratch := List.replicate 300 1, scratchLen := 0, rleMaskBlock := [0, 0, 0, 0] }
      ⟨by simp only [Module.initial, List.length_replicate], fun h => absurd rfl h⟩
      (by simp only [List.length_replicate])
      (by simp only [List.length_replicate]; decide) rfl⟩

/-- C8: boundary, no duplicates. For every 256-pixel scanline with `pixel[0] != 0` and
`pixel[i] != pixel[i-1]` for all `i` in 1..255, `simd_initPixRowSimd` sets
`*scratchLen = 256`, `scratch[0..255]` to the scanline and all four `rleMaskBlock` words
to 0. -/
theorem C8_no_duplicates (md : Module) (from_ : List Nat) (bufs : Buffers)
    (hmd : md.Valid) (hfrom : from_.length = 256) (hscratch : 256 ≤ bufs.scratch.length)
    (hrle : bufs.rleMaskBlock.length = 4)
    (h0 : from_.getD 0 0 ≠ 0)
    (hne : ∀ i, i < 256 → 0 < i → from_.getD i 0 ≠ from_.getD (i - 1) 0) :
    ∃ md' out, simd_initPixRowSimd true md from_ bufs = .ok (1, md', out) ∧
      out.scratchLen = 256 ∧ out.scratch.take 256 = from_ ∧
      out.rleMaskBlock = [0, 0, 0, 0] := by
  have hd : ∀ i, i < 256 → dup from_ i = false := by
    intro i hi
    unfold dup
    by_cases hi0 : i = 0
    · subst hi0; simpa using h0
    · simpa [hi0] using hne i hi (Nat.pos_of_ne_zero hi0)
  have hk := keptIn_all from_ hfrom hd
  have hc : countAfter from_ 32 = 256 := by
    rw [countAfter_eq from_ hfrom 32 (by omega), hk, hfrom]
  refine ⟨_, _, simd_initPixRowSimd_eq md from_ bufs hmd hfrom hscratch hrle, hc, ?_, ?_⟩
  · have ht := scratchAfter_take from_ bufs.scratch hfrom hscratch 32 (by omega)
    rw [hc, hk] at ht
    exact ht
  · simp only []
    rw [rleBlockAfter_four from_ bufs.rleMaskBlock hrle,
      rleAfter_eq_zero from_ 0 hfrom (by omega) hd, rleAfter_eq_zero from_ 1 hfrom (by omega) hd,
      rleAfter_eq_zero from_ 2 hfrom (by omega) hd, rleAfter_eq_zero from_ 3 hfrom (by omega) hd]

theorem C8_no_duplicates_witness :
    ((List.range 256).map (fun i => i + 1)).getD 0 0 ≠ 0 ∧
    (∀ i, i < 256 → 0 < i →
      ((List.range 256).map (fun i => i + 1)).getD i 0
        ≠ ((List.range 256).map (fun i => i + 1)).getD (i - 1) 0) ∧
    ∃ md' out,
      simd_initPixRowSimd true Module.initial ((List.range 256).map (fun i => i + 1))
          { scratch := List.replicate 256 0, scratchLen := 0, rleMaskBlock := [0, 0, 0, 0] }
        = .ok (1, md', out) ∧
      out.scratchLen = 256 ∧ out.scratch.take 256 = (List.range 256).map (fun i => i + 1) ∧
      out.rleMaskBlock = [0, 0, 0, 0] :=
  have h0 : ((List.range 256).map (fun i => i + 1)).getD 0 0 ≠ 0 := by
    simp [List.getD_eq_getElem?_getD, List.getElem?_range]
  have hne : ∀ i, i < 256 → 0 < i →
      ((List.range 256).map (fun i => i + 1)).getD i 0
        ≠ ((List.range 256).map (fun i => i + 1)).getD (i - 1) 0 := by
    intro i hi hpos
    have h1 : i - 1 < 256 := by omega
    simp only [List.getD_eq_getElem?_getD, List.getElem?_map, List.getElem?_range hi,
      List.getElem?_range h1, Option.map_some', Option.getD_some]
    omega
  ⟨h0, hne,
    C8_no_duplicates Module.initial ((List.range 256).map (fun i => i + 1))
      { scratch := List.replicate 256 0, scratchLen := 0, rleMaskBlock := [0, 0, 0, 0] }
      ⟨by simp only [Module.initial, List.length_replicate], fun h => absurd rfl h⟩
      (by simp only [List.length_map, List.length_range])
      (by simp only [List.length_replicate, le_refl]) rfl h0 hne⟩

/-- C9: boundary, all-zero. For the scanline of 256 zero pixels `simd_initPixRowSimd` sets
`*scratchLen = 0` and each of the four `rleMaskBlock` words to `0xFFFFFFFFFFFFFFFF`. -/
theorem C9_all_zero (md : Module) (bufs : Buffers)
    (hmd : md.Valid) (hscratch : 256 ≤ bufs.scratch.length)
    (hrle : bufs.rleMaskBlock.length = 4) :
    ∃ md' out,
      simd_initPixRowSimd true md (List.replicate 256 0) bufs = .ok (1, md', out) ∧
      out.scratchLen = 0 ∧
      out.rleMaskBlock = [0xFFFFFFFFFFFFFFFF, 0xFFFFFFFFFFFFFFFF, 0xFFFFFFFFFFFFFFFF,
        0xFFFFFFFFFFFFFFFF] := by
  have hfrom : (List.replicate 256 0).length = 256 := List.length_replicate 256 0
  have hd : ∀ i, i < 256 → dup (List.replicate 256 0) i = true := by
    intro i hi
    have hz : ∀ j, j < 256 → (List.replicate 256 0).getD j 0 = 0 := by
      intro j hj
      rw [List.getD_eq_getElem?_getD, List.getElem?_replicate, if_pos hj]
      rfl
    unfold dup
    rw [hz i hi, hz (i - 1) (by omega)]
    simp
  have hc : countAfter (List.replicate 256 0) 32 = 0 := by
    rw [countAfter_eq _ hfrom 32 (by omega),
      keptIn_none _ 0 (8 * 32) (fun i _ hi => hd i (by omega))]
    rfl
  have e : (2 : Nat) ^ 64 - 1 = 0xFFFFFFFFFFFFFFFF := by rfl
  refine ⟨_, _, simd_initPixRowSimd_eq md _ bufs hmd hfrom hscratch hrle, hc, ?_⟩
  simp only []
  rw [rleBlockAfter_four _ bufs.rleMaskBlock hrle,
    rleAfter_eq_ones _ 0 hfrom (by omega) hd, rleAfter_eq_ones _ 1 hfrom (by omega) hd,
    rleAfter_eq_ones _ 2 hfrom (by omega) hd, rleAfter_eq_ones _ 3 hfrom (by omega) hd, e]

theorem C9_all_zero_witness :
    Module.initial.Valid ∧
    ∃ md' out,
      simd_initPixRowSimd true Module.initial (List.replicate 256 0)
          { scratch := List.replicate 256 9, scratchLen := 5, rleMaskBlock := [1, 2, 3, 4] }
        = .ok (1, md', out) ∧
      out.scratchLen = 0 ∧
      out.rleMaskBlock = [0xFFFFFFFFFFFFFFFF, 0xFFFFFFFFFFFFFFFF, 0xFFFFFFFFFFFFFFFF,
        0xFFFFFFFFFFFFFFFF] :=
  ⟨⟨by simp only [Module.initial, List.length_replicate], fun h => absurd rfl h⟩,
    C9_all_zero Module.initial
      { scratch := List.replicate 256 9, scratchLen := 5, rleMaskBlock := [1, 2, 3, 4] }
      ⟨by simp only [Module.initial, List.length_replicate], fun h => absurd rfl h⟩
      (by simp only [List.length_replicate, le_refl]) rfl⟩

/-- C10: example. For every 256-pixel scanline whose first six pixels are 5,5,5,7,7,9, bits
0..5 of `rleMaskBlock[0]` after `simd_initPixRowSimd` are 0,1,1,0,1,0, `*scratchLen` is at
least 3, and `scratch[0]`, `scratch[1]`, `scratch[2]` are 5, 7, 9. -/
theorem C10_example_prefix (md : Module) (from_ : List Nat) (bufs : Buffers)
    (hmd : md.Valid) (hfrom : from_.length = 256) (hscratch : 256 ≤ bufs.scratch.length)
    (hrle : bufs.rleMaskBlock.length = 4)
    (hfirst : from_.take 6 = [5, 5, 5, 7, 7, 9]) :
    ∃ md' out, simd_initPixRowSimd true md from_ bufs = .ok (1, md', out) ∧
      (out.rleMaskBlock.getD 0 0).testBit 0 = false ∧
      (out.rleMaskBlock.getD 0 0).testBit 1 = true ∧
      (out.rleMaskBlock.getD 0 0).testBit 2 = true ∧
      (out.rleMaskBlock.getD 0 0).testBit 3 = false ∧
      (out.rleMaskBlock.getD 0 0).testBit 4 = true ∧
      (out.rleMaskBlock.getD 0 0).testBit 5 = false ∧
      3 ≤ out.scratchLen ∧
      out.scratch[0]? = some 5 ∧ out.scratch[1]? = some 7 ∧ out.scratch[2]? = some 9 := by
  have hsplit : from_ = 5 :: 5 :: 5 :: 7 :: 7 :: 9 :: from_.drop 6 := by
    have h := List.take_append_drop 6 from_
    rw [hfirst] at h
    exact h.symm
  have hbit := rleBlock_testBit from_ bufs.rleMaskBlock hfrom hrle
  have hscan : scalarScan 0 from_ = [5, 7, 9] ++ scalarScan 9 (from_.drop 6) := by
    rw [hsplit]
    simp [scalarScan]
  have htake := out_take from_ bufs.scratch hfrom hscratch
  have hlen := out_len from_ hfrom
  rw [hscan] at htake hlen
  have d0 : dup from_ 0 = false := by rw [hsplit]; simp [dup]
  have d1 : dup from_ 1 = true := by rw [hsplit]; simp [dup]
  have d2 : dup from_ 2 = true := by rw [hsplit]; simp [dup]
  have d3 : dup from_ 3 = false := by rw [hsplit]; simp [dup]
  have d4 : dup from_ 4 = true := by rw [hsplit]; simp [dup]
  have d5 : dup from_ 5 = false := by rw [hsplit]; simp [dup]
  refine ⟨_, _, simd_initPixRowSimd_eq md from_ bufs hmd hfrom hscratch hrle,
    ?_, ?_, ?_, ?_, ?_, ?_, ?_, ?_, ?_, ?_⟩
  · rw [← d0]; exact hbit 0 (by omega)
  · rw [← d1]; exact hbit 1 (by omega)
  · rw [← d2]; exact hbit 2 (by omega)
  · rw [← d3]; exact hbit 3 (by omega)
  · rw [← d4]; exact hbit 4 (by omega)
  · rw [← d5]; exact hbit 5 (by omega)
  · simp only []
    rw [hlen, List.length_append]
    exact Nat.le_add_right 3 _
  · exact take_prefix_getElem? _ _ _ _ htake hlen 0 (by decide)
  · exact take_prefix_getElem? _ _ _ _ htake hlen 1 (by decide)
  · exact take_prefix_getElem? _ _ _ _ htake hlen 2 (by decide)

theorem C10_example_prefix_witness :
    ([5, 5, 5, 7, 7, 9] ++ List.replicate 250 3).length = 256 ∧
    ([5, 5, 5, 7, 7, 9] ++ List.replicate 250 3).take 6 = [5, 5, 5, 7, 7, 9] ∧
    ∃ md' out,
      simd_initPixRowSimd true Module.initial ([5, 5, 5, 7, 7, 9] ++ List.replicate 250 3)
          { scratch := List.replicate 256 0, scratchLen := 0, rleMaskBlock := [0, 0, 0, 0] }
        = .ok (1, md', out) ∧
      (out.rleMaskBlock.getD 0 0).testBit 0 = false ∧
      (out.rleMaskBlock.getD 0 0).testBit 1 = true ∧
      (out.rleMaskBlock.getD 0 0).testBit 2 = true ∧
      (out.rleMaskBlock.getD 0 0).testBit 3 = false ∧
      (out.rleMaskBlock.getD 0 0).testBit 4 = true ∧
      (out.rleMaskBlock.getD 0 0).testBit 5 = false ∧
      3 ≤ out.scratchLen ∧
      out.scratch[0]? = some 5 ∧ out.scratch[1]? = some 7 ∧ out.scratch[2]? = some 9 :=
  ⟨by simp only [List.length_append, List.length_replicate, List.length_cons, List.length_nil],
    List.take_left' rfl,
    C10_example_prefix Module.initial ([5, 5, 5, 7, 7, 9] ++ List.replicate 250 3)
      { scratch := List.replicate 256 0, scratchLen := 0, rleMaskBlock := [0, 0, 0, 0] }
      ⟨by simp only [Module.initial, List.length_replicate], fun h => absurd rfl h⟩
      (by simp only [List.length_append, List.length_replicate, List.length_cons,
        List.length_nil])
      (by simp only [List.length_replicate, le_refl]) rfl (List.take_left' rfl)⟩

/-- C11: LUT padding is unobservable. For every 256-pixel scanline, running
`simd_initPixRowSimd` with the static table replaced by any table `alt` whose row for each
mask `m` has eight lanes, each an index in 0..7, and agrees with the row `vpermd_lut[m]`
built by `init_gather_lut` on the first `popcount(m XOR 0xFF)` lanes, yields the same
`*scratchLen`, the same `rleMaskBlock` and the same first `*scratchLen` entries of
`scratch` as the run with the built table. -/
theorem C11_padding_unobservable (md : Module) (from_ : List Nat) (bufs : Buffers)
    (alt tbl : List M256i)
    (hmd : md.Valid) (hfrom : from_.length = 256) (hscratch : 256 ≤ bufs.scratch.length)
    (hrle : bufs.rleMaskBlock.length = 4)
    (htbl : init_gather_lut md.vpermd_lut = .ok tbl) (halt : PaddingVariant alt tbl) :
    ∃ md' out out',
      simd_initPixRowSimd true md from_ bufs = .ok (1, md', out) ∧
      md'.vpermd_lut = tbl ∧
      simd_initPixRowSimd true { lut_initialized := 1, vpermd_lut := alt } from_ bufs
        = .ok (1, { lut_initialized := 1, vpermd_lut := alt }, out') ∧
      out'.scratchLen = out.scratchLen ∧
      out'.rleMaskBlock = out.rleMaskBlock ∧
      out'.scratch.take out'.scratchLen = out.scratch.take out.scratchLen := by
  have ht : tbl = gatherTable := by
    rw [init_gather_lut_eq _ hmd.1] at htbl
    exact (Except.ok.inj htbl).symm
  subst ht
  obtain ⟨a', hA, hrun'⟩ := simd_initPixRowSimd_alt alt from_ bufs halt hfrom hscratch hrle
  obtain ⟨_, _, _, hL, _, _, _, htake⟩ := hA
  have hL' : a'.scratchLen = countAfter from_ 32 := hL
  have htake' : a'.scratch.take (countAfter from_ 32)
      = (scratchAfter from_ bufs.scratch 32).take (countAfter from_ 32) := htake
  refine ⟨_, _, _, simd_initPixRowSimd_eq md from_ bufs hmd hfrom hscratch hrle,
    Module.after_table md hmd, hrun', hL', rfl, ?_⟩
  simp only []
  rw [hL', htake']

theorem C11_padding_unobservable_witness :
    Module.initial.Valid ∧ (List.replicate 256 7).length = 256 ∧
    PaddingVariant
      ((List.range 256).map (fun m =>
        (specRow m).take (mm_popcnt_u32 (m ^^^ 0xff))
          ++ List.replicate (8 - mm_popcnt_u32 (m ^^^ 0xff)) 7))
      gatherTable ∧
    ∃ md' out out',
      simd_initPixRowSimd true Module.initial (List.replicate 256 7)
          { scratch := List.replicate 256 0, scratchLen := 0, rleMaskBlock := [0, 0, 0, 0] }
        = .ok (1, md', out) ∧
      md'.vpermd_lut = gatherTable ∧
      simd_initPixRowSimd true
          { lut_initialized := 1
            vpermd_lut := (List.range 256).map (fun m =>
              (specRow m).take (mm_popcnt_u32 (m ^^^ 0xff))
                ++ List.replicate (8 - mm_popcnt_u32 (m ^^^ 0xff)) 7) }
          (List.replicate 256 7)
          { scratch := List.replicate 256 0, scratchLen := 0, rleMaskBlock := [0, 0, 0, 0] }
        = .ok (1,
            { lut_initialized := 1
              vpermd_lut := (List.range 256).map (fun m =>
                (specRow m).take (mm_popcnt_u32 (m ^^^ 0xff))
                  ++ List.replicate (8 - mm_popcnt_u32 (m ^^^ 0xff)) 7) }, out') ∧
      out'.scratchLen = out.scratchLen ∧
      out'.rleMaskBlock = out.rleMaskBlock ∧
      out'.scratch.take out'.scratchLen = out.scratch.take out.scratchLen :=
  have halt : PaddingVariant
      ((List.range 256).map (fun m =>
        (specRow m).take (mm_popcnt_u32 (m ^^^ 0xff))
          ++ List.replicate (8 - mm_popcnt_u32 (m ^^^ 0xff)) 7))
      gatherTable := by
    unfold PaddingVariant
    decide!
  ⟨⟨by simp only [Module.initial, List.length_replicate], fun h => absurd rfl h⟩,
    by simp only [List.length_replicate], halt,
    C11_padding_unobservable Module.initial (List.replicate 256 7)
      { scratch := List.replicate 256 0, scratchLen := 0, rleMaskBlock := [0, 0, 0, 0] }
      _ gatherTable
      ⟨by simp only [Module.initial, List.length_replicate], fun h => absurd rfl h⟩
      (by simp only [List.length_replicate])
      (by simp only [List.length_replicate, le_refl]) rfl
      (init_gather_lut_eq _ (by simp only [Module.initial, List.length_replicate]))
      halt⟩

/-- C12: capability absence. The branch of `simd_initPixRowSimd` without SIMD casts
`rleMask` to `void`, an identifier that is not declared there (the parameter is
`rleMaskBlock`). With `ENABLE_SIMD` false no call returns: for every static state, scanline
and buffers the run ends in `undeclaredIdentifier`, where the property has it return 0 with
the static state and the buffers unchanged. -/
theorem C12_disabled_branch_undeclared (md : Module) (from_ : List Nat) (bufs : Buffers) :
    simd_initPixRowSimd false md from_ bufs = .error .undeclaredIdentifier ∧
    ∀ r, simd_initPixRowSimd false md from_ bufs ≠ .ok r :=
  ⟨rfl, fun _ h => nomatch h⟩

/-- C13: one-time LUT construction in a sequence of calls. Starting from a static state with
`lut_initialized = 0`, after every non-empty prefix of a sequence of calls of
`simd_initPixRowSimd` the counter of executions of `init_gather_lut` is 1 (the execution
happens in the first call), `lut_initialized = 1` and `vpermd_lut` is the table
`init_gather_lut` builds; so no later call changes the table. The counter is a ghost:
erasing it from the counted function gives `simd_initPixRowSimd`. -/
theorem C13_lut_built_once (md0 : Module) (calls : List (List Nat × Buffers))
    (h0 : md0.lut_initialized = 0) (hlen : md0.vpermd_lut.length = 256)
    (hcalls : ∀ c ∈ calls, c.1.length = 256 ∧ 256 ≤ c.2.scratch.length ∧
      c.2.rleMaskBlock.length = 4) :
    (∀ e md builds from_ bufs,
      (simd_initPixRowSimdCounted e md builds from_ bufs).map (fun r => (r.1, r.2.1, r.2.2.1))
        = simd_initPixRowSimd e md from_ bufs) ∧
    callSequence md0 0 [] = .ok (md0, 0) ∧
    ∃ tbl, init_gather_lut md0.vpermd_lut = .ok tbl ∧
      ∀ k, 0 < k → k ≤ calls.length →
        callSequence md0 0 (calls.take k)
          = .ok ({ lut_initialized := 1, vpermd_lut := tbl }, 1) := by
  refine ⟨simd_initPixRowSimdCounted_erase, rfl, gatherTable, init_gather_lut_eq _ hlen, ?_⟩
  intro k hk hkl
  have hsub : ∀ c ∈ calls.take k, c.1.length = 256 ∧ 256 ≤ c.2.scratch.length ∧
      c.2.rleMaskBlock.length = 4 := fun c hc => hcalls c (List.mem_of_mem_take hc)
  cases hct : calls.take k with
  | nil =>
    have hl := congrArg List.length hct
    rw [List.length_take] at hl
    simp only [List.length_nil] at hl
    omega
  | cons c rest =>
    rw [hct] at hsub
    exact callSequence_first md0 h0 hlen c.1 c.2 rest 0 hsub

theorem C13_lut_built_once_witness :
    Module.initial.lut_initialized = 0 ∧ Module.initial.vpermd_lut.length = 256 ∧
    ∃ tbl, init_gather_lut Module.initial.vpermd_lut = .ok tbl ∧
      ∀ k, 0 < k → k ≤ 2 →
        callSequence Module.initial 0
            (List.take k
              [(List.replicate 256 7,
                  { scratch := List.replicate 256 0, scratchLen := 0
                    rleMaskBlock := [0, 0, 0, 0] }),
               (List.replicate 256 0,
                  { scratch := List.replicate 256 1, scratchLen := 9
                    rleMaskBlock := [1, 2, 3, 4] })])
          = .ok ({ lut_initialized := 1, vpermd_lut := tbl }, 1) :=
  ⟨rfl, by simp only [Module.initial, List.length_replicate],
    (C13_lut_built_once Module.initial
      [(List.replicate 256 7,
          { scratch := List.replicate 256 0, scratchLen := 0, rleMaskBlock := [0, 0, 0, 0] }),
       (List.replicate 256 0,
          { scratch := List.replicate 256 1, scratchLen := 9, rleMaskBlock := [1, 2, 3, 4] })]
      rfl (by simp only [Module.initial, List.length_replicate])
      (by
        intro c hc
        simp only [List.mem_cons, List.mem_singleton, List.not_mem_nil, or_false] at hc
        rcases hc with rfl | rfl
        · exact ⟨by simp only [List.length_replicate],
            by simp only [List.length_replicate, le_refl], rfl⟩
        · exact ⟨by simp only [List.length_replicate],
            by simp only [List.length_replicate, le_refl], rfl⟩)).2.2⟩

/-- C14: LUT determinism. `init_gather_lut` writes all 256 rows, each with the value the
loop body computes from the row index alone (whatever the local array held), so for every
two prior contents of the table the resulting table is the same, and building the table
two or more times in a row yields the table of a single build. -/
theorem C14_lut_determinism (t1 t2 : List M256i) (h1 : t1.length = 256)
    (h2 : t2.length = 256) :
    ∃ tbl, init_gather_lut t1 = .ok tbl ∧ init_gather_lut t2 = .ok tbl ∧
      tbl.length = 256 ∧
      (∀ m lut0, m < 256 → lut0.length = 8 →
        ∃ row, tbl[m]? = some row ∧ (lutRow lut0 m).map vpermdRow = .ok row) ∧
      (∀ k, buildTimes (k + 1) t1 = .ok tbl) := by
  refine ⟨gatherTable, init_gather_lut_eq t1 h1, init_gather_lut_eq t2 h2,
    gatherTable_length, ?_, buildTimes_eq t1 h1⟩
  intro m lut0 hm h0
  exact ⟨specRow m, gatherTable_getElem? m hm, lutRow_map_vpermdRow lut0 h0 m hm⟩

theorem C14_lut_determinism_witness :
    (List.replicate 256 (List.replicate 8 0) : List M256i).length = 256 ∧
    (List.replicate 256 (List.replicate 8 5) : List M256i).length = 256 ∧
    ∃ tbl, init_gather_lut (List.replicate 256 (List.replicate 8 0)) = .ok tbl ∧
      init_gather_lut (List.replicate 256 (List.replicate 8 5)) = .ok tbl ∧
      tbl.length = 256 ∧
      (∀ m lut0, m < 256 → lut0.length = 8 →
        ∃ row, tbl[m]? = some row ∧ (lutRow lut0 m).map vpermdRow = .ok row) ∧
      (∀ k, buildTimes (k + 1) (List.replicate 256 (List.replicate 8 0)) = .ok tbl) :=
  ⟨by simp only [List.length_replicate], by simp only [List.length_replicate],
    C14_lut_determinism (List.replicate 256 (List.replicate 8 0))
      (List.replicate 256 (List.replicate 8 5))
      (by simp only [List.length_replicate]) (by simp only [List.length_replicate])⟩

/-- C15, as stated, fails. With two threads making their first call, the schedule
thread 0 check, thread 0 set flag, thread 1 check, thread 1 encode lets thread 1 run its
encoder on the zero-filled table while no construction has completed (row 0 of the built
table is 0,1,...,7); the schedule in which both threads check before either sets the flag
executes `init_gather_lut` twice. -/
theorem C15_counterexample :
    (∃ sh threads,
      runSchedule Shared.initial [Thread.fresh, Thread.fresh] [0, 0, 1, 1] = .ok (sh, threads) ∧
      sh.lut_initialized = 1 ∧ sh.builds = 0 ∧
      (threads.getD 1 Thread.fresh).pc = .done ∧
      (threads.getD 1 Thread.fresh).tableRead
        = some (List.replicate 256 (List.replicate 8 0))) ∧
    (∃ tbl, init_gather_lut (List.replicate 256 (List.replicate 8 0)) = .ok tbl ∧
      tbl[0]? = some [0, 1, 2, 3, 4, 5, 6, 7]) ∧
    (∃ sh threads,
      runSchedule Shared.initial [Thread.fresh, Thread.fresh] [0, 1, 0, 1, 0, 1]
        = .ok (sh, threads) ∧
      sh.builds = 2) := by
  refine ⟨?_, ⟨gatherTable, init_gather_lut_eq _ (List.length_replicate 256 _), ?_⟩, ?_⟩
  · obtain ⟨r, hr, hp⟩ := ok_of_okAnd early_read_check
    exact ⟨r.1, r.2, hr, of_decide_eq_true hp⟩
  · rw [gatherTable_getElem? 0 (by decide)]
    decide
  · obtain ⟨r, hr, hp⟩ := ok_of_okAnd double_build_check
    exact ⟨r.1, r.2, hr, of_decide_eq_true hp⟩

/-- C15, amended: the first-use check is a plain flag test. Once one thread has completed
its check, flag write and `init_gather_lut` before any other thread makes its check,
then for every number of other threads and every interleaving of the remaining steps
`init_gather_lut` has executed exactly once and every thread that has read `vpermd_lut`
has read the built table. -/
theorem C15_first_use_after_warmup (others : Nat) (schedule : List Nat) :
    ∃ tbl threads,
      init_gather_lut Shared.initial.vpermd_lut = .ok tbl ∧
      runSchedule Shared.initial (List.replicate (others + 1) Thread.fresh)
          (0 :: 0 :: 0 :: schedule)
        = .ok ({ lut_initialized := 1, vpermd_lut := tbl, builds := 1 }, threads) ∧
      threads.length = others + 1 ∧
      ∀ t ∈ threads, t.tableRead = none ∨ t.tableRead = some tbl := by
  have hall : ∀ t ∈ ({ pc := .encode, tableRead := none } : Thread)
      :: List.replicate others Thread.fresh, t.Settled gatherTable := by
    intro t ht
    rcases List.mem_cons.mp ht with h | h
    · rw [h]; exact ⟨Or.inr (Or.inl rfl), Or.inl rfl⟩
    · rw [List.eq_of_mem_replicate h]; exact ⟨Or.inl rfl, Or.inl rfl⟩
  obtain ⟨threads, hrun, hlen, hs⟩ := runSchedule_settled gatherTable 1 schedule _ hall
  refine ⟨gatherTable, threads, init_gather_lut_eq _ (List.length_replicate 256 _), ?_, ?_,
    fun t ht => (hs t ht).2⟩
  · rw [runSchedule_warmup]
    exact hrun
  · rw [hlen, List.length_cons, List.length_replicate]

/-- C16: per-group gather. For every mask `m < 256` and every group `v` of 8 pixels,
permuting `v` by the control vector `vpermd_lut[m]` of the built table gives a vector whose
slots `j < popcount(m XOR 0xFF)` are, in lane order, the pixels of `v` whose bit in `m` is
unset: slot `j` holds the lane of the `j`-th unset bit of `m`. -/
theorem C16_gather_kept_lanes (vpermd_lut : List M256i) (hlen : vpermd_lut.length = 256) :
    ∃ tbl, init_gather_lut vpermd_lut = .ok tbl ∧
      ∀ m (v : M256i), m < 256 → v.length = 8 →
        ∃ control, tbl[m]? = some control ∧
          (mm256_permutevar8x32_epi32 v control).length = 8 ∧
          (mm256_permutevar8x32_epi32 v control).take (mm_popcnt_u32 (m ^^^ 0xff))
            = ((List.range 8).filter (fun b => !m.testBit b)).map (fun b => v.getD b 0) := by
  refine ⟨gatherTable, init_gather_lut_eq vpermd_lut hlen, ?_⟩
  intro m v hm _
  refine ⟨specRow m, gatherTable_getElem? m hm, ?_, ?_⟩
  · simp only [mm256_permutevar8x32_epi32, List.length_map]
    exact (specRow_check m hm).1
  · rw [permute_take, specRow_take m hm]
    apply List.map_congr_left
    intro b hb
    have hb8 : b < 8 := by
      have := List.mem_of_mem_filter hb
      simpa using this
    rw [Nat.mod_eq_of_lt hb8]

theorem C16_gather_kept_lanes_witness :
    (List.replicate 256 (List.replicate 8 0) : List M256i).length = 256 ∧
    ∃ tbl, init_gather_lut (List.replicate 256 (List.replicate 8 0)) = .ok tbl ∧
      ∀ m (v : M256i), m < 256 → v.length = 8 →
        ∃ control, tbl[m]? = some control ∧
          (mm256_permutevar8x32_epi32 v control).length = 8 ∧
          (mm256_permutevar8x32_epi32 v control).take (mm_popcnt_u32 (m ^^^ 0xff))
            = ((List.range 8).filter (fun b => !m.testBit b)).map (fun b => v.getD b 0) :=
  ⟨by simp only [List.length_replicate],
    C16_gather_kept_lanes (List.replicate 256 (List.replicate 8 0))
      (by simp only [List.length_replicate])⟩

/-- C17: the compacted output contains no run. For every 256-pixel scanline, no two
adjacent entries among the first `*scratchLen` entries of `scratch` are equal, and if
`*scratchLen > 0` then `scratch[0] != 0`. -/
theorem C17_no_run_in_output (md : Module) (from_ : List Nat) (bufs : Buffers)
    (hmd : md.Valid) (hfrom : from_.length = 256) (hscratch : 256 ≤ bufs.scratch.length)
    (hrle : bufs.rleMaskBlock.length = 4) :
    ∃ md' out, simd_initPixRowSimd true md from_ bufs = .ok (1, md', out) ∧
      (∀ j, j + 1 < out.scratchLen → out.scratch.getD j 0 ≠ out.scratch.getD (j + 1) 0) ∧
      (0 < out.scratchLen → out.scratch.getD 0 0 ≠ 0) := by
  have htake := out_take from_ bufs.scratch hfrom hscratch
  have hlen := out_len from_ hfrom
  have hch := List.chain_iff_get.mp (scalarScan_chain from_ 0)
  have hget : ∀ j (hj : j < (scalarScan 0 from_).length),
      (scratchAfter from_ bufs.scratch 32).getD j 0 = (scalarScan 0 from_)[j] := by
    intro j hj
    have h1 : ((scratchAfter from_ bufs.scratch 32).take (countAfter from_ 32))[j]?
        = (scratchAfter from_ bufs.scratch 32)[j]? := by
      rw [List.getElem?_take, if_pos (by rw [hlen]; exact hj)]
    rw [List.getD_eq_getElem?_getD, ← h1, htake, List.getElem?_eq_getElem hj]
    rfl
  refine ⟨_, _, simd_initPixRowSimd_eq md from_ bufs hmd hfrom hscratch hrle, ?_, ?_⟩
  · intro j hj
    simp only [] at hj ⊢
    rw [hlen] at hj
    rw [hget j (by omega), hget (j + 1) hj]
    have := hch.2 j (by omega)
    simpa using this
  · intro h0
    simp only [] at h0 ⊢
    rw [hlen] at h0
    rw [hget 0 h0]
    have := hch.1 h0
    simpa using fun e => this e.symm

theorem C17_no_run_in_output_witness :
    Module.initial.Valid ∧ (List.replicate 256 7).length = 256 ∧
    ∃ md' out,
      simd_initPixRowSimd true Module.initial (List.replicate 256 7)
          { scratch := List.replicate 256 0, scratchLen := 0, rleMaskBlock := [0, 0, 0, 0] }
        = .ok (1, md', out) ∧
      (∀ j, j + 1 < out.scratchLen → out.scratch.getD j 0 ≠ out.scratch.getD (j + 1) 0) ∧
      (0 < out.scratchLen → out.scratch.getD 0 0 ≠ 0) :=
  ⟨⟨by simp only [Module.initial, List.length_replicate], fun h => absurd rfl h⟩,
    by simp only [List.length_replicate],
    C17_no_run_in_output Module.initial (List.replicate 256 7)
      { scratch := List.replicate 256 0, scratchLen := 0, rleMaskBlock := [0, 0, 0, 0] }
      ⟨by simp only [Module.initial, List.length_replicate], fun h => absurd rfl h⟩
      (by simp only [List.length_replicate])
      (by simp only [List.length_replicate, le_refl]) rfl⟩

/-- C18: assertion validity. For every 256-pixel scanline no `assert` of
`simd_initPixRowSimd` fails: at the outer iteration `n` the counter `x` is `64n`, so
`remaining = 256 - x` is a multiple of 8 and the clamp leaves `blocks = 8` (32 groups in
all, ending at `x = 256`); the mask `diffMask` returns is below 256 and `countBitsUnset`
is at most 8, in every group and for all 8-lane operands. -/
theorem C18_assertions_hold (md : Module) (from_ : List Nat) (bufs : Buffers)
    (hmd : md.Valid) (hfrom : from_.length = 256) (hscratch : 256 ≤ bufs.scratch.length)
    (hrle : bufs.rleMaskBlock.length = 4) :
    (∃ md' out, simd_initPixRowSimd true md from_ bufs = .ok (1, md', out) ∧
      maskLoop md'.vpermd_lut from_ 4 0
          { x := 0, block := 0, scratchP := 0, scratchLen := 0, scratch := bufs.scratch
            rleMask := 0, newMask := 0 } bufs.rleMaskBlock
        = .ok (stateAt from_ bufs.scratch 3 8, out.rleMaskBlock) ∧
      (stateAt from_ bufs.scratch 3 8).x = 256 ∧
      (∀ n, n < 4 →
        (stateAt from_ bufs.scratch n 0).x = 64 * n ∧
        toInt32 ((256 + (2 ^ 32 - 64 * n % 2 ^ 32)) % 2 ^ 32) = 256 - 64 * (n : Int) ∧
        (256 - 64 * (n : Int)).tmod 8 = 0 ∧
        (if (256 - 64 * (n : Int)).tdiv 8 > 8 then (8 : Int)
          else (256 - 64 * (n : Int)).tdiv 8) = 8 ∧
        maskBody md'.vpermd_lut from_ n (stateAt from_ bufs.scratch n 0)
            (rleBlockAfter from_ bufs.rleMaskBlock n)
          = .ok (stateAt from_ bufs.scratch n 8,
              rleBlockAfter from_ bufs.rleMaskBlock (n + 1))) ∧
      (∀ n i, n < 4 → i < 8 →
        groupBody md'.vpermd_lut from_ i (stateAt from_ bufs.scratch n i)
          = .ok (stateAt from_ bufs.scratch n (i + 1)) ∧
        (stateAt from_ bufs.scratch n (i + 1)).newMask
          = diffMask (prevGroup from_ (8 * n + i)) (currGroup from_ (8 * n + i)) ∧
        (stateAt from_ bufs.scratch n (i + 1)).newMask < 256 ∧
        mm_popcnt_u32 ((stateAt from_ bufs.scratch n (i + 1)).newMask ^^^ 0xff) ≤ 8)) ∧
    (∀ prev curr : M256i, prev.length = 8 → curr.length = 8 → diffMask prev curr < 256) ∧
    (∀ m, m < 256 → mm_popcnt_u32 (m ^^^ 0xff) ≤ 8) ∧
    simd_initPixRowSimd true md from_ bufs ≠ .error .assertFailed := by
  have hrun := simd_initPixRowSimd_eq md from_ bufs hmd hfrom hscratch hrle
  have htbl := Module.after_table md hmd
  refine ⟨⟨_, _, hrun, ?_, ?_, ?_, ?_⟩, diffMask_lt, popcnt_xor_le_check, ?_⟩
  · rw [htbl]
    exact maskLoop_stateAt from_ bufs.scratch bufs.rleMaskBlock hfrom hscratch hrle
  · rfl
  · intro n hn
    have hf := remaining_facts n hn
    refine ⟨?_, hf.1, hf.2.1, hf.2.2, ?_⟩
    · simp only [stateAt]; omega
    · rw [htbl]
      exact maskBody_at from_ bufs.scratch bufs.rleMaskBlock n hfrom hscratch hrle hn
  · intro n i hn hi
    have hg : 8 * n + i < 32 := by omega
    have hnm : (stateAt from_ bufs.scratch n (i + 1)).newMask = groupMask from_ (8 * n + i) := by
      simp [stateAt]
    refine ⟨?_, ?_, ?_, ?_⟩
    · rw [htbl]
      exact groupBody_stateAt from_ bufs.scratch n i hfrom hscratch hn hi
    · rw [hnm]; rfl
    · rw [hnm]; exact groupMask_lt from_ _ hfrom hg
    · rw [hnm]; exact groupCount_le from_ _ hfrom hg
  · rw [hrun]
    intro h
    cases h

theorem C18_assertions_hold_witness :
    Module.initial.Valid ∧ (List.replicate 256 7).length = 256 ∧
    (∃ md' out,
      simd_initPixRowSimd true Module.initial (List.replicate 256 7)
          { scratch := List.replicate 256 0, scratchLen := 0, rleMaskBlock := [0, 0, 0, 0] }
        = .ok (1, md', out)) ∧
    simd_initPixRowSimd true Module.initial (List.replicate 256 7)
        { scratch := List.replicate 256 0, scratchLen := 0, rleMaskBlock := [0, 0, 0, 0] }
      ≠ .error .assertFailed :=
  have h := C18_assertions_hold Module.initial (List.replicate 256 7)
    { scratch := List.replicate 256 0, scratchLen := 0, rleMaskBlock := [0, 0, 0, 0] }
    ⟨by simp only [Module.initial, List.length_replicate], fun h => absurd rfl h⟩
    (by simp only [List.length_replicate])
    (by simp only [List.length_replicate, le_refl]) rfl
  ⟨⟨by simp only [Module.initial, List.length_replicate], fun h => absurd rfl h⟩,
    by simp only [List.length_replicate],
    h.1.elim (fun md' h1 => h1.elim (fun out h2 => ⟨md', out, h2.1⟩)), h.2.2.2⟩

/-- C19: input-read safety. For every call on a 256-pixel scanline every bounds-checked read
of `from` succeeds, so every index read lies in 0..255: group `g` loads `curr` from
`8g .. 8g+7`; the first group (`x = 0`) builds `prev` from `block[0..6]` and the constant
0, every other group has `x >= 8` and loads `prev` from `block - 1 = 8g - 1 >= 7`, so index
-1 is never read; `rleMaskBlock` is written at the indices `nMask < 4` only. -/
theorem C19_reads_in_bounds (md : Module) (from_ : List Nat) (bufs : Buffers)
    (hmd : md.Valid) (hfrom : from_.length = 256) (hscratch : 256 ≤ bufs.scratch.length)
    (hrle : bufs.rleMaskBlock.length = 4) :
    (∃ md' out, simd_initPixRowSimd true md from_ bufs = .ok (1, md', out) ∧
      out.rleMaskBlock.length = 4 ∧
      (∀ n i, n < 4 → i < 8 →
        groupBody md'.vpermd_lut from_ i (stateAt from_ bufs.scratch n i)
          = .ok (stateAt from_ bufs.scratch n (i + 1)) ∧
        (stateAt from_ bufs.scratch n i).block = 8 * (8 * n + i) ∧
        (stateAt from_ bufs.scratch n i).x = (stateAt from_ bufs.scratch n i).block ∧
        (stateAt from_ bufs.scratch n i).block + 7 ≤ 255 ∧
        mm256_loadu_si256 from_ (stateAt from_ bufs.scratch n i).block
          = .ok (currGroup from_ (8 * n + i)) ∧
        loadPrev from_ (stateAt from_ bufs.scratch n i) = .ok (prevGroup from_ (8 * n + i)) ∧
        ((stateAt from_ bufs.scratch n i).x = 0 →
          prevGroup from_ (8 * n + i)
            = mm256_set_epi32 (from_.getD 6 0) (from_.getD 5 0) (from_.getD 4 0)
                (from_.getD 3 0) (from_.getD 2 0) (from_.getD 1 0) (from_.getD 0 0) 0) ∧
        ((stateAt from_ bufs.scratch n i).x ≠ 0 →
          8 ≤ (stateAt from_ bufs.scratch n i).x ∧
          7 ≤ (stateAt from_ bufs.scratch n i).block - 1 ∧
          (stateAt from_ bufs.scratch n i).block - 1 + 7 ≤ 255 ∧
          loadPrev from_ (stateAt from_ bufs.scratch n i)
            = mm256_loadu_si256 from_ ((stateAt from_ bufs.scratch n i).block - 1))) ∧
      (∀ n, n < 4 →
        n < (rleBlockAfter from_ bufs.rleMaskBlock n).length ∧
        maskBody md'.vpermd_lut from_ n (stateAt from_ bufs.scratch n 0)
            (rleBlockAfter from_ bufs.rleMaskBlock n)
          = .ok (stateAt from_ bufs.scratch n 8,
              (rleBlockAfter from_ bufs.rleMaskBlock n).set n (rleAfter from_ n 8)))) ∧
    simd_initPixRowSimd true md from_ bufs ≠ .error .loadOutOfBounds ∧
    simd_initPixRowSimd true md from_ bufs ≠ .error .storeOutOfBounds := by
  have hrun := simd_initPixRowSimd_eq md from_ bufs hmd hfrom hscratch hrle
  have htbl := Module.after_table md hmd
  refine ⟨⟨_, _, hrun, ?_, ?_, ?_⟩, ?_, ?_⟩
  · simp only [rleBlockAfter_length, hrle]
  · intro n i hn hi
    have hg : 8 * n + i < 32 := by omega
    have hprev := loadPrev_ok from_ (stateAt from_ bufs.scratch n i) (8 * n + i) hfrom hg
      rfl rfl
    refine ⟨?_, rfl, rfl, ?_, ?_, hprev, ?_, ?_⟩
    · rw [htbl]
      exact groupBody_stateAt from_ bufs.scratch n i hfrom hscratch hn hi
    · simp only [stateAt]; omega
    · rw [loadu_ok]
      · rfl
      · simp only [stateAt]; omega
    · intro hx
      have h0 : 8 * n + i = 0 := by
        simp only [stateAt] at hx
        omega
      rw [h0]
      rfl
    · intro hx
      have hx' : 8 * (8 * n + i) ≠ 0 := hx
      refine ⟨?_, ?_, ?_, ?_⟩
      · simp only [stateAt]; omega
      · simp only [stateAt]; omega
      · simp only [stateAt]; omega
      · exact loadPrev_shifted from_ _ hx hx
  · intro n hn
    refine ⟨by rw [rleBlockAfter_length, hrle]; exact hn, ?_⟩
    rw [htbl]
    exact maskBody_at from_ bufs.scratch bufs.rleMaskBlock n hfrom hscratch hrle hn
  · rw [hrun]
    intro h
    cases h
  · rw [hrun]
    intro h
    cases h

theorem C19_reads_in_bounds_witness :
    Module.initial.Valid ∧ (List.replicate 256 7).length = 256 ∧
    (∃ md' out,
      simd_initPixRowSimd true Module.initial (List.replicate 256 7)
          { scratch := List.replicate 256 0, scratchLen := 0, rleMaskBlock := [0, 0, 0, 0] }
        = .ok (1, md', out)) ∧
    simd_initPixRowSimd true Module.initial (List.replicate 256 7)
        { scratch := List.replicate 256 0, scratchLen := 0, rleMaskBlock := [0, 0, 0, 0] }
      ≠ .error .loadOutOfBounds :=
  have h := C19_reads_in_bounds Module.initial (List.replicate 256 7)
    { scratch := List.replicate 256 0, scratchLen := 0, rleMaskBlock := [0, 0, 0, 0] }
    ⟨by simp only [Module.initial, List.length_replicate], fun h => absurd rfl h⟩
    (by simp only [List.length_replicate])
    (by simp only [List.length_replicate, le_refl]) rfl
  ⟨⟨by simp only [Module.initial, List.length_replicate], fun h => absurd rfl h⟩,
    by simp only [List.length_replicate],
    h.1.elim (fun md' h1 => h1.elim (fun out h2 => ⟨md', out, h2.1⟩)), h.2.1⟩

end DeltaSimd
